import Mathlib

/-!
Verification development for the edge-sentinel-sdk repository.

Shallow embedding of the SDK's pure core in Lean 4:
* `Compression` embeds `src/modules/compression-service.ts` (compress /
  decompress / isCompressed over a model of `btoa`/`atob`, `TextEncoder`/
  `TextDecoder` and the external pako codec).
* `Redaction` embeds the sensitive-data machinery of `src/index.ts`
  (`_processSensitiveData`, `_maskSensitiveFields`, `_isSensitiveField`,
  `_defaultSensitiveMask`).
* `Sampling` embeds `src/modules/sampling-service.ts`.
* `Tracker` embeds `src/modules/operation-tracker.ts` with an explicit
  heap so that the reference-sharing between the active-operation map and
  the events handed to the reporter is visible.
* `Storage` embeds the IndexedDB-backed `StorageService` as a functional
  queue, and `Pipeline` embeds `EdgeSentinelSDK._report` /
  `_reportBatchData`.

JavaScript strings are modelled as lists of Unicode scalar values
(`List Nat`) on the compression side (where byte-level encodings matter)
and as `List Char` on the redaction side.
-/

namespace Compression

/-- Code points of the constant `COMPRESSION_PREFIX = 'EDGECOMPR:'` from
`compression-service.ts` (the sentinel tag marking compressed payloads). -/
def sentinelTag : List Nat := [69, 68, 71, 69, 67, 79, 77, 80, 82, 58]

/-- Base64 alphabet: maps a 6-bit value to the code point of its digit,
as produced by `btoa`. -/
def b64Char (n : Nat) : Nat :=
  if n < 26 then 65 + n
  else if n < 52 then 97 + (n - 26)
  else if n < 62 then 48 + (n - 52)
  else if n = 62 then 43
  else 47

/-- Model of the host `btoa`: encode a binary string (a list of bytes)
into base64 code points, padding with `'='` (61). -/
def btoa : List Nat → List Nat
  | [] => []
  | [a] => [b64Char (a / 4), b64Char (a % 4 * 16), 61, 61]
  | [a, b] => [b64Char (a / 4), b64Char (a % 4 * 16 + b / 16), b64Char (b % 16 * 4), 61]
  | a :: b :: c :: rest =>
      b64Char (a / 4) :: b64Char (a % 4 * 16 + b / 16) ::
      b64Char (b % 16 * 4 + c / 64) :: b64Char (c % 64) :: btoa rest

/-- Inverse of the base64 alphabet; `none` on a code point outside it
(including the pad `'='`). -/
def b64Val (c : Nat) : Option Nat :=
  if 65 ≤ c ∧ c ≤ 90 then some (c - 65)
  else if 97 ≤ c ∧ c ≤ 122 then some (c - 97 + 26)
  else if 48 ≤ c ∧ c ≤ 57 then some (c - 48 + 52)
  else if c = 43 then some 62
  else if c = 47 then some 63
  else none

/-- Decode a pad-free base64 string, four digits at a time; a trailing
group of two or three digits yields one or two bytes, a trailing single
digit is an error (forgiving-base64, as implemented by `atob`). -/
def b64dCore : List Nat → Option (List Nat)
  | [] => some []
  | [_] => none
  | [c1, c2] => do
      let v1 ← b64Val c1
      let v2 ← b64Val c2
      some [v1 * 4 + v2 / 16]
  | [c1, c2, c3] => do
      let v1 ← b64Val c1
      let v2 ← b64Val c2
      let v3 ← b64Val c3
      some [v1 * 4 + v2 / 16, v2 % 16 * 16 + v3 / 4]
  | c1 :: c2 :: c3 :: c4 :: rest => do
      let v1 ← b64Val c1
      let v2 ← b64Val c2
      let v3 ← b64Val c3
      let v4 ← b64Val c4
      let tail ← b64dCore rest
      some ((v1 * 4 + v2 / 16) :: (v2 % 16 * 16 + v3 / 4) :: (v3 % 4 * 64 + v4) :: tail)

/-- Remove one or two trailing `'='` pad characters. -/
def stripPad (s : List Nat) : List Nat :=
  if s.reverse.take 2 = [61, 61] then (s.reverse.drop 2).reverse
  else if s.reverse.take 1 = [61] then (s.reverse.drop 1).reverse
  else s

/-- Model of the host `atob` (WHATWG forgiving-base64 decode): when the
length is a multiple of four, up to two trailing pads are removed first;
`none` models the `DOMException` this throws on malformed input. -/
def atob (s : List Nat) : Option (List Nat) :=
  b64dCore (if s.length % 4 = 0 then stripPad s else s)

/-- UTF-8 encoding of one Unicode scalar value, as performed by
`TextEncoder` (`new TextEncoder().encode(data)` in `compress`). -/
def utf8EncodeChar (c : Nat) : List Nat :=
  if c < 128 then [c]
  else if c < 2048 then [192 + c / 64, 128 + c % 64]
  else if c < 65536 then [224 + c / 4096, 128 + c / 64 % 64, 128 + c % 64]
  else [240 + c / 262144, 128 + c / 4096 % 64, 128 + c / 64 % 64, 128 + c % 64]

/-- UTF-8 encoding of a string (list of scalar values). -/
def utf8Encode (s : List Nat) : List Nat := (s.map utf8EncodeChar).flatten

/-- State-machine UTF-8 decoder: `pending` continuation bytes still
expected and the partially accumulated scalar value. Malformed bytes
decode to U+FFFD (65533), mirroring the replacement behaviour of
`TextDecoder` (which never throws). -/
def utf8DecodeAux : Nat → Nat → List Nat → List Nat
  | 0, _, [] => []
  | 0, _, b :: rest =>
      if b < 128 then b :: utf8DecodeAux 0 0 rest
      else if b < 192 then 65533 :: utf8DecodeAux 0 0 rest
      else if b < 224 then utf8DecodeAux 1 (b - 192) rest
      else if b < 240 then utf8DecodeAux 2 (b - 224) rest
      else if b < 248 then utf8DecodeAux 3 (b - 240) rest
      else 65533 :: utf8DecodeAux 0 0 rest
  | _ + 1, _, [] => [65533]
  | n + 1, v, b :: rest =>
      if 128 ≤ b ∧ b < 192 then
        match n with
        | 0 => (v * 64 + (b - 128)) :: utf8DecodeAux 0 0 rest
        | m + 1 => utf8DecodeAux (m + 1) (v * 64 + (b - 128)) rest
      else 65533 :: utf8DecodeAux 0 0 rest

/-- Model of `TextDecoder().decode`. -/
def utf8Decode (bs : List Nat) : List Nat := utf8DecodeAux 0 0 bs

/-- Model of the external `pako.deflate` contract: the output is a
self-describing zlib stream (here: a two-byte zlib header in front of the
payload); the compression `level` affects only the ratio, not
reversibility, and is therefore ignored by the model. -/
def pakoDeflate (_level : Nat) (bs : List Nat) : List Nat := 120 :: 156 :: bs

/-- Model of the external `pako.inflate` contract: inverts `pakoDeflate`
and fails (throws, modelled by `none`) on data that is not a zlib
stream. -/
def pakoInflate : List Nat → Option (List Nat)
  | 120 :: 156 :: rest => some rest
  | _ => none

/-- Embedding of `CompressionOptions` of `compression-service.ts`: `level` and
`addPrefix` (whether the sentinel tag is prepended). -/
structure CompressionOptions where
  level : Nat
  addTag : Bool
deriving DecidableEq

/-- The service's `defaultOptions`: `level: BALANCED (6), addPrefix: true`. -/
def defaultOptions : CompressionOptions := ⟨6, true⟩

/-- Embedding of `CompressionService.isBase64`: `btoa(atob(str)) === str`, with a
thrown `atob` caught as `false`. -/
def isBase64 (s : List Nat) : Bool :=
  match atob s with
  | some bs => btoa bs = s
  | none => false

/-- Embedding of `CompressionService.isCompressed`: data is considered compressed when
it carries the sentinel tag, or — failing that — when it is base64 that
speculatively inflates without error. -/
def isCompressed (data : List Nat) : Bool :=
  if sentinelTag.isPrefixOf data then true
  else
    match atob data with
    | some bs => isBase64 data && (pakoInflate bs).isSome
    | none => false

/-- Embedding of `CompressionService.compress`: empty input unchanged; input already
recognized as compressed unchanged; otherwise UTF-8 encode, deflate,
base64-encode and (by default) prepend the sentinel tag. -/
def compress (data : List Nat) (opts : CompressionOptions := defaultOptions) : List Nat :=
  if data = [] then data
  else if isCompressed data then data
  else
    let bytes := utf8Encode data
    let compressed := pakoDeflate opts.level bytes
    let result := btoa compressed
    if opts.addTag then sentinelTag ++ result else result

/-- Embedding of `CompressionService.decompress`: empty or not-recognized-compressed
input unchanged; otherwise strip the tag, check base64, decode and
inflate; any failure returns the original string. -/
def decompress (data : List Nat) : List Nat :=
  if data = [] then data
  else if ¬ isCompressed data then data
  else
    let processed := if sentinelTag.isPrefixOf data then data.drop sentinelTag.length else data
    if ¬ isBase64 processed then data
    else
      match atob processed with
      | none => data
      | some bytes =>
          match pakoInflate bytes with
          | none => data
          | some out => utf8Decode out

end Compression

namespace Compression

theorem b64Val_b64Char : ∀ n < 64, b64Val (b64Char n) = some n := by decide

theorem b64Char_ne_pad : ∀ n < 64, b64Char n ≠ 61 := by decide

theorem btoa_length_mod4 (bs : List Nat) : (btoa bs).length % 4 = 0 := by
  induction bs using btoa.induct <;> simp [btoa] <;> omega

theorem btoa_length_ge (bs : List Nat) (h : bs ≠ []) : 4 ≤ (btoa bs).length := by
  induction bs using btoa.induct <;> simp [btoa] at h ⊢

theorem stripPad_append (g s : List Nat) (h : 2 ≤ s.length) :
    stripPad (g ++ s) = g ++ stripPad s := by
  have hs : 2 ≤ s.reverse.length := by simpa using h
  unfold stripPad
  rw [List.reverse_append]
  rw [List.take_append_of_le_length hs, List.take_append_of_le_length (by omega),
    List.drop_append_of_le_length hs, List.drop_append_of_le_length (by omega)]
  split
  · simp
  · split
    · simp
    · rfl

theorem b64dCore_group (a b c : Nat) (t : List Nat)
    (ha : a < 256) (hb : b < 256) (hc : c < 256) :
    b64dCore (b64Char (a / 4) :: b64Char (a % 4 * 16 + b / 16) ::
      b64Char (b % 16 * 4 + c / 64) :: b64Char (c % 64) :: t) =
    (b64dCore t).bind (fun tail => some (a :: b :: c :: tail)) := by
  have h1 := b64Val_b64Char (a / 4) (by omega)
  have h2 := b64Val_b64Char (a % 4 * 16 + b / 16) (by omega)
  have h3 := b64Val_b64Char (b % 16 * 4 + c / 64) (by omega)
  have h4 := b64Val_b64Char (c % 64) (by omega)
  have e1 : a / 4 * 4 + (a % 4 * 16 + b / 16) / 16 = a := by omega
  have e2 : (a % 4 * 16 + b / 16) % 16 * 16 + (b % 16 * 4 + c / 64) / 4 = b := by omega
  have e3 : (b % 16 * 4 + c / 64) % 4 * 64 + c % 64 = c := by omega
  simp [b64dCore, h1, h2, h3, h4, e1, e2, e3]

theorem atob_btoa (bs : List Nat) (h : ∀ b ∈ bs, b < 256) : atob (btoa bs) = some bs := by
  induction bs using btoa.induct with
  | case1 => rfl
  | case2 a =>
      have ha : a < 256 := h a (by simp)
      have h1 := b64Val_b64Char (a / 4) (by omega)
      have h2 := b64Val_b64Char (a % 4 * 16) (by omega)
      simp [atob, btoa, stripPad, b64dCore, h1, h2]
      omega
  | case3 a b =>
      have ha : a < 256 := h a (by simp)
      have hb : b < 256 := h b (by simp)
      have h1 := b64Val_b64Char (a / 4) (by omega)
      have h2 := b64Val_b64Char (a % 4 * 16 + b / 16) (by omega)
      have h3 := b64Val_b64Char (b % 16 * 4) (by omega)
      have hne3 : b64Char (b % 16 * 4) ≠ 61 := b64Char_ne_pad _ (by omega)
      simp [atob, btoa, stripPad, b64dCore, h1, h2, h3, hne3]
      omega
  | case4 a b c rest ih =>
      have ha : a < 256 := h a (by simp)
      have hb : b < 256 := h b (by simp)
      have hc : c < 256 := h c (by simp)
      by_cases hrest : rest = []
      · subst hrest
        have hne3 : b64Char (b % 16 * 4 + c / 64) ≠ 61 := b64Char_ne_pad _ (by omega)
        have hne4 : b64Char (c % 64) ≠ 61 := b64Char_ne_pad _ (by omega)
        have hg := b64dCore_group a b c [] ha hb hc
        simp only [b64dCore] at hg
        simp [atob, btoa, stripPad, hne3, hne4]
        simpa [atob, b64dCore] using hg
      · have hih : atob (btoa rest) = some rest := ih (fun x hx => h x (by simp [hx]))
        have hlen : 2 ≤ (btoa rest).length := le_trans (by omega) (btoa_length_ge rest hrest)
        have hmod : (btoa rest).length % 4 = 0 := btoa_length_mod4 rest
        have hg := b64dCore_group a b c (stripPad (btoa rest)) ha hb hc
        unfold atob at hih
        rw [if_pos hmod] at hih
        show atob (btoa (a :: b :: c :: rest)) = _
        unfold btoa atob
        rw [if_pos (by simp [List.length_append]; omega)]
        have happ :
            stripPad (b64Char (a / 4) :: b64Char (a % 4 * 16 + b / 16) ::
              b64Char (b % 16 * 4 + c / 64) :: b64Char (c % 64) :: btoa rest) =
            b64Char (a / 4) :: b64Char (a % 4 * 16 + b / 16) ::
              b64Char (b % 16 * 4 + c / 64) :: b64Char (c % 64) :: stripPad (btoa rest) := by
          have := stripPad_append
            [b64Char (a / 4), b64Char (a % 4 * 16 + b / 16),
              b64Char (b % 16 * 4 + c / 64), b64Char (c % 64)] (btoa rest) hlen
          simpa using this
        rw [happ, hg, hih]
        rfl

theorem isBase64_btoa (bs : List Nat) (h : ∀ b ∈ bs, b < 256) : isBase64 (btoa bs) = true := by
  simp [isBase64, atob_btoa bs h]

theorem isPrefixOf_append_self (p r : List Nat) : p.isPrefixOf (p ++ r) = true := by
  induction p with
  | nil => simp [List.isPrefixOf]
  | cons a t ih => simp [List.isPrefixOf, ih]

theorem utf8EncodeChar_bytes_lt (c : Nat) (hc : c < 1114112) :
    ∀ b ∈ utf8EncodeChar c, b < 256 := by
  intro b hb
  unfold utf8EncodeChar at hb
  split at hb <;> [skip; split at hb] <;> [skip; skip; split at hb] <;>
    simp only [List.mem_cons, List.mem_singleton, List.not_mem_nil, or_false] at hb <;>
    rcases hb with rfl | rfl | rfl | rfl | h0 <;> omega

theorem utf8Encode_bytes_lt (s : List Nat) (h : ∀ c ∈ s, c < 1114112) :
    ∀ b ∈ utf8Encode s, b < 256 := by
  induction s with
  | nil => simp [utf8Encode]
  | cons c cs ih =>
      intro b hb
      simp only [utf8Encode, List.map_cons, List.flatten_cons, List.mem_append] at hb
      rcases hb with hb | hb
      · exact utf8EncodeChar_bytes_lt c (h c (by simp)) b hb
      · exact ih (fun x hx => h x (by simp [hx])) b hb

theorem utf8DecodeAux_encodeChar (c : Nat) (hc : c < 1114112) (rest : List Nat) :
    utf8DecodeAux 0 0 (utf8EncodeChar c ++ rest) = c :: utf8DecodeAux 0 0 rest := by
  unfold utf8EncodeChar
  by_cases h1 : c < 128
  · rw [if_pos h1]
    simp only [List.cons_append, List.nil_append]
    rw [utf8DecodeAux]
    rw [if_pos h1]
  · rw [if_neg h1]
    by_cases h2 : c < 2048
    · rw [if_pos h2]
      simp only [List.cons_append, List.nil_append]
      rw [utf8DecodeAux]
      rw [if_neg (by omega), if_neg (by omega), if_pos (by omega)]
      rw [utf8DecodeAux]
      rw [if_pos (by omega)]
      simp
      omega
    · rw [if_neg h2]
      by_cases h3 : c < 65536
      · rw [if_pos h3]
        simp only [List.cons_append, List.nil_append]
        rw [utf8DecodeAux]
        rw [if_neg (by omega), if_neg (by omega), if_neg (by omega), if_pos (by omega)]
        rw [utf8DecodeAux]
        rw [if_pos (by omega)]
        rw [utf8DecodeAux]
        rw [if_pos (by omega)]
        simp
        omega
      · rw [if_neg h3]
        simp only [List.cons_append, List.nil_append]
        rw [utf8DecodeAux]
        rw [if_neg (by omega), if_neg (by omega), if_neg (by omega), if_neg (by omega),
          if_pos (by omega)]
        rw [utf8DecodeAux]
        rw [if_pos (by omega)]
        rw [utf8DecodeAux]
        rw [if_pos (by omega)]
        rw [utf8DecodeAux]
        rw [if_pos (by omega)]
        simp
        omega

theorem utf8Decode_encode (s : List Nat) (h : ∀ c ∈ s, c < 1114112) :
    utf8Decode (utf8Encode s) = s := by
  induction s with
  | nil => rfl
  | cons c cs ih =>
      show utf8DecodeAux 0 0 (utf8Encode (c :: cs)) = c :: cs
      have : utf8Encode (c :: cs) = utf8EncodeChar c ++ utf8Encode cs := by
        simp [utf8Encode]
      rw [this, utf8DecodeAux_encodeChar c (h c (by simp))]
      exact congrArg (c :: ·) (ih (fun x hx => h x (by simp [hx])))

end Compression

namespace Compression

/-- C1 (counterexample): the output of `compress` on `"A"` (`[65]`) is a
non-empty string on which the round trip fails: `compress` recognizes it
as already compressed and returns it unchanged, and `decompress` then
inflates it back to `"A"`, not to itself. -/
theorem C1_roundtrip_counterexample :
    compress [65] ≠ [] ∧ decompress (compress (compress [65])) ≠ compress [65] := by
  decide

/-- C1 (amended): `decompress (compress x) = x` holds for every non-empty
string `x` of Unicode scalar values that `isCompressed` does not already
classify as compressed; for inputs classified as compressed, `compress`
is the identity and `decompress` may return different content. -/
theorem C1_roundtrip_amended (x : List Nat) (hne : x ≠ [])
    (hval : ∀ c ∈ x, c < 1114112) (hnc : isCompressed x = false) :
    decompress (compress x) = x := by
  have hbytes : ∀ b ∈ pakoDeflate 6 (utf8Encode x), b < 256 := by
    intro b hb
    simp only [pakoDeflate, List.mem_cons] at hb
    rcases hb with rfl | rfl | hb
    · omega
    · omega
    · exact utf8Encode_bytes_lt x hval b hb
  have hatob : atob (btoa (pakoDeflate 6 (utf8Encode x))) =
      some (pakoDeflate 6 (utf8Encode x)) := atob_btoa _ hbytes
  have hc : compress x = sentinelTag ++ btoa (pakoDeflate 6 (utf8Encode x)) := by
    simp only [compress, defaultOptions]
    rw [if_neg hne, if_neg (by simp [hnc])]
    simp
  have hcomp : isCompressed (sentinelTag ++ btoa (pakoDeflate 6 (utf8Encode x))) = true := by
    simp [isCompressed, isPrefixOf_append_self]
  have hb64 : isBase64 (btoa (pakoDeflate 6 (utf8Encode x))) = true := isBase64_btoa _ hbytes
  rw [hc]
  unfold decompress
  rw [if_neg (show ¬ sentinelTag ++ btoa (pakoDeflate 6 (utf8Encode x)) = [] by
    simp [sentinelTag])]
  rw [if_neg (by simp [hcomp])]
  simp only [isPrefixOf_append_self, if_true, List.drop_left, hb64, not_true, if_false, hatob]
  simp only [pakoDeflate, pakoInflate]
  exact utf8Decode_encode x hval

/-- C1 (witness): the amended round trip instantiated at `"A"`. -/
theorem C1_roundtrip_witness : decompress (compress [65]) = [65] :=
  C1_roundtrip_amended [65] (by decide) (by decide) (by decide)

end Compression

namespace Redaction

mutual

/-- JavaScript values as handled by the redaction path of `src/index.ts`
(strings are lists of characters; numbers are modelled as integers). -/
inductive JsValue where
  | vNull
  | vUndef
  | vBool (b : Bool)
  | vNum (n : Int)
  | vStr (s : List Char)
  | vArr (xs : JsArr)
  | vObj (kvs : JsObj)

/-- A JavaScript array of `JsValue`s. -/
inductive JsArr where
  | nil
  | cons (hd : JsValue) (tl : JsArr)

/-- A JavaScript plain object: ordered own enumerable properties. -/
inductive JsObj where
  | nil
  | cons (k : List Char) (v : JsValue) (tl : JsObj)

end

mutual

/-- Model of JavaScript `String(value)` for the values above
(`[object Object]` for plain objects, comma-join for arrays). -/
def jsToString : JsValue → List Char
  | .vNull => "null".data
  | .vUndef => "undefined".data
  | .vBool true => "true".data
  | .vBool false => "false".data
  | .vNum n => (toString n).data
  | .vStr s => s
  | .vObj _ => "[object Object]".data
  | .vArr xs => jsToStringArr xs

/-- Embedding of `Array.prototype.toString`: elements joined by `','`, with `null` and
`undefined` elements rendered as the empty string. -/
def jsToStringArr : JsArr → List Char
  | .nil => []
  | .cons x t =>
      let e := match x with
        | .vNull => []
        | .vUndef => []
        | _ => jsToString x
      match t with
      | .nil => e
      | _ => e ++ ',' :: jsToStringArr t

end

/-- JavaScript falsiness (`!data`) for the modelled values. -/
def isFalsy : JsValue → Bool
  | .vNull => true
  | .vUndef => true
  | .vBool b => !b
  | .vNum n => n == 0
  | .vStr s => s.isEmpty
  | _ => false

/-- The fixed built-in keyword list of `_isSensitiveField`. -/
def sensitiveKeywords : List (List Char) :=
  ["password", "pwd", "secret", "token", "auth", "key", "credential",
    "ssn", "social", "card", "cvv", "pin", "passport", "license"].map String.data

/-- Model of `String.prototype.includes`: substring containment. -/
def containsSub (needle hay : List Char) : Bool := decide (needle <:+: hay)

/-- Keyword part of `_isSensitiveField`: the lowercased field name
contains some built-in keyword. -/
def hasSensitiveKeyword (fieldName : List Char) : Bool :=
  sensitiveKeywords.any (fun kw => containsSub kw (fieldName.map Char.toLower))

/-- Embedding of `EdgeSentinelSDK._isSensitiveField`: exact match against the
configured list, else keyword containment in the lowercased name. -/
def isSensitiveField (fieldName : List Char) (sensitiveFields : List (List Char)) : Bool :=
  if sensitiveFields.contains fieldName then true
  else hasSensitiveKeyword fieldName

/-- The `String(value)` branch of `_defaultSensitiveMask` (the input is
the stringified value). -/
def maskBody (s : List Char) : List Char :=
  if s.length ≤ 1 then ['*']
  else if s.length ≤ 3 then s.take 1 ++ List.replicate (s.length - 1) '*'
  else s.take 1 ++ List.replicate (s.length - 2) '*' ++ s.drop (s.length - 1)

/-- Embedding of `EdgeSentinelSDK._defaultSensitiveMask`: `null`/`undefined` map to
`""`, any other value is stringified and masked. -/
def defaultSensitiveMask : JsValue → List Char
  | .vNull => []
  | .vUndef => []
  | v => maskBody (jsToString v)

mutual

/-- Embedding of `EdgeSentinelSDK._maskSensitiveFields` on a value: primitives are
returned unchanged, arrays are processed element-wise, objects
field-wise. -/
def maskSensitiveFields (sf : List (List Char)) : JsValue → JsValue
  | .vArr xs => .vArr (maskArr sf xs)
  | .vObj kvs => .vObj (maskObj sf kvs)
  | v => v

/-- Element-wise recursion of `_maskSensitiveFields` over an array. -/
def maskArr (sf : List (List Char)) : JsArr → JsArr
  | .nil => .nil
  | .cons x t => .cons (maskSensitiveFields sf x) (maskArr sf t)

/-- Field-wise recursion of `_maskSensitiveFields` over an object: a
sensitive field's value is replaced by the default mask of its
stringification (no recursion into it); a non-sensitive object-typed
value is recursed into; other values are kept. -/
def maskObj (sf : List (List Char)) : JsObj → JsObj
  | .nil => .nil
  | .cons k v t =>
      let v' :=
        if isSensitiveField k sf then JsValue.vStr (defaultSensitiveMask v)
        else
          match v with
          | .vObj _ => maskSensitiveFields sf v
          | .vArr _ => maskSensitiveFields sf v
          | _ => v
      .cons k v' (maskObj sf t)

end

/-- Type of a configured `customSensitiveHandler`. -/
def Handler : Type := List Char → JsValue → JsValue

mutual

/-- Embedding of `EdgeSentinelSDK._applyCustomHandler`. The source recurses into
objects returned by the handler itself and hence terminates only when
those outputs eventually bottom out; `fuel` bounds that handler-output
recursion (structural recursion pays for everything else). -/
def applyCustomHandler (h : Handler) : Nat → JsValue → JsValue
  | fuel, .vArr xs => .vArr (applyCustomHandlerArr h fuel xs)
  | fuel, .vObj kvs => .vObj (applyCustomHandlerObj h fuel kvs)
  | _, v => v

/-- Array part of `_applyCustomHandler`. -/
def applyCustomHandlerArr (h : Handler) : Nat → JsArr → JsArr
  | _, .nil => .nil
  | fuel, .cons x t => .cons (applyCustomHandler h fuel x) (applyCustomHandlerArr h fuel t)

/-- Object part of `_applyCustomHandler`: the handler is applied to every
key, and object-typed handler results are recursed into. -/
def applyCustomHandlerObj (h : Handler) : Nat → JsObj → JsObj
  | _, .nil => .nil
  | fuel, .cons k v t =>
      let nv := h k v
      let nv' :=
        match nv, fuel with
        | .vObj _, f + 1 => applyCustomHandler h f nv
        | .vArr _, f + 1 => applyCustomHandler h f nv
        | _, _ => nv
      .cons k nv' (applyCustomHandlerObj h fuel t)

end

/-- Embedding of `EdgeSentinelSDK._processSensitiveData`: falsy data unchanged; with
neither `sensitiveFields` nor `customSensitiveHandler` configured the
data is returned as-is; otherwise a deep copy (value semantics in this
embedding) is masked when a non-empty `sensitiveFields` list is
configured, and the custom handler — when configured — runs afterwards. -/
def processSensitiveData (sensitiveFields : Option (List (List Char)))
    (customHandler : Option Handler) (fuel : Nat) (data : JsValue) : JsValue :=
  if isFalsy data then data
  else if sensitiveFields.isNone && customHandler.isNone then data
  else
    let result := data
    let result :=
      match sensitiveFields with
      | some sf => if 0 < sf.length then maskSensitiveFields sf result else result
      | none => result
    match customHandler with
    | some h => applyCustomHandler h fuel result
    | none => result

end Redaction

namespace Redaction

mutual

/-- A raw value is exposed when some keyword-sensitive field anywhere in
the value holds a string containing it. -/
def exposesV (raw : List Char) : JsValue → Bool
  | .vArr xs => exposesArr raw xs
  | .vObj kvs => exposesObj raw kvs
  | _ => false

/-- Exposure inside an array. -/
def exposesArr (raw : List Char) : JsArr → Bool
  | .nil => false
  | .cons x t => exposesV raw x || exposesArr raw t

/-- Exposure inside an object. -/
def exposesObj (raw : List Char) : JsObj → Bool
  | .nil => false
  | .cons k v t =>
      (hasSensitiveKeyword k &&
        (match v with | .vStr s => containsSub raw s | _ => false))
      || exposesV raw v || exposesObj raw t

end

theorem replicate_no_pair (p : List Char) : ∀ (j : Nat) (t : List Char), t.length ≤ 1 →
    ∀ (a b : Char) (rest q : List Char),
      p ++ a :: b :: rest ++ q = List.replicate j '*' ++ t → a = '*' ∨ b = '*' := by
  induction p with
  | nil =>
      intro j t ht a b rest q h
      cases j with
      | zero =>
          simp only [List.replicate, List.nil_append] at h
          have := congrArg List.length h
          simp at this
          omega
      | succ j =>
          rw [List.replicate_succ] at h
          simp only [List.nil_append, List.cons_append] at h
          exact Or.inl (List.cons.inj h).1
  | cons x p' ih =>
      intro j t ht a b rest q h
      cases j with
      | zero =>
          simp only [List.replicate, List.nil_append] at h
          have := congrArg List.length h
          simp at this
          omega
      | succ j =>
          rw [List.replicate_succ] at h
          simp only [List.cons_append] at h
          exact ih j t ht a b rest q (List.cons.inj h).2

theorem not_infix_head_stars (raw : List Char) (h2 : 2 ≤ raw.length) (hstar : '*' ∉ raw)
    (c : Char) (k : Nat) (hk : 1 ≤ k) (t : List Char) (ht : t.length ≤ 1) :
    ¬ raw <:+: (c :: (List.replicate k '*' ++ t)) := by
  rintro ⟨p, q, h⟩
  match raw, h2 with
  | a :: b :: rest, _ =>
    have ha : a ≠ '*' := fun hc => hstar (by simp [hc])
    have hb : b ≠ '*' := fun hc => hstar (by simp [hc])
    cases p with
    | nil =>
        simp only [List.nil_append, List.cons_append] at h
        have h1 := (List.cons.inj h).2
        cases k with
        | zero => omega
        | succ k =>
            rw [List.replicate_succ] at h1
            simp only [List.cons_append] at h1
            exact hb (List.cons.inj h1).1
    | cons x p' =>
        simp only [List.cons_append] at h
        have h1 := (List.cons.inj h).2
        rcases replicate_no_pair p' k t ht a b rest q (by simpa using h1) with h' | h'
        · exact ha h'
        · exact hb h'

theorem not_infix_maskBody (raw : List Char) (h2 : 2 ≤ raw.length) (hstar : '*' ∉ raw)
    (s : List Char) : ¬ raw <:+: maskBody s := by
  unfold maskBody
  by_cases hle1 : s.length ≤ 1
  · rw [if_pos hle1]
    intro h
    have := h.length_le
    simp only [List.length_singleton] at this
    omega
  · rw [if_neg hle1]
    obtain ⟨c, s', rfl⟩ : ∃ c s', s = c :: s' := by
      cases s with
      | nil => simp at hle1
      | cons c s' => exact ⟨c, s', rfl⟩
    simp only [List.length_cons] at hle1
    by_cases hle3 : (c :: s').length ≤ 3
    · rw [if_pos hle3]
      simp only [List.length_cons] at hle3
      simp only [List.take_succ_cons, List.take_zero, List.length_cons,
        Nat.add_sub_cancel]
      intro h
      have hns := not_infix_head_stars raw h2 hstar c s'.length (by omega) [] (by simp)
      simp only [List.append_nil] at hns
      exact hns (by simpa using h)
    · rw [if_neg hle3]
      simp only [List.length_cons] at hle3
      simp only [List.take_succ_cons, List.take_zero, List.length_cons,
        Nat.add_sub_cancel]
      intro h
      have hns := not_infix_head_stars raw h2 hstar c (s'.length + 1 - 2) (by omega)
        (List.drop s'.length (c :: s'))
        (by simp only [List.length_drop, List.length_cons]; omega)
      exact hns (by simpa using h)

theorem not_infix_defaultMask (raw : List Char) (h2 : 2 ≤ raw.length) (hstar : '*' ∉ raw)
    (v : JsValue) : containsSub raw (defaultSensitiveMask v) = false := by
  have hnil : ¬ raw <:+: ([] : List Char) := by
    intro h
    have := h.length_le
    simp only [List.length_nil, Nat.le_zero] at this
    omega
  cases v <;> simp only [defaultSensitiveMask, containsSub, decide_eq_false_iff_not] <;>
    first
      | exact hnil
      | exact not_infix_maskBody raw h2 hstar _

theorem hasKeyword_of_isSensitive_false (k : List Char) (sf : List (List Char))
    (h : isSensitiveField k sf = false) : hasSensitiveKeyword k = false := by
  unfold isSensitiveField at h
  split at h
  · exact absurd h (by simp)
  · exact h

end Redaction

namespace Redaction

mutual

theorem exposes_mask_v (raw : List Char) (sf : List (List Char)) (h2 : 2 ≤ raw.length)
    (hstar : '*' ∉ raw) : (v : JsValue) → exposesV raw (maskSensitiveFields sf v) = false
  | .vNull => rfl
  | .vUndef => rfl
  | .vBool _ => rfl
  | .vNum _ => rfl
  | .vStr _ => rfl
  | .vArr xs => by
      simpa only [maskSensitiveFields, exposesV] using exposes_mask_arr raw sf h2 hstar xs
  | .vObj kvs => by
      simpa only [maskSensitiveFields, exposesV] using exposes_mask_obj raw sf h2 hstar kvs

theorem exposes_mask_arr (raw : List Char) (sf : List (List Char)) (h2 : 2 ≤ raw.length)
    (hstar : '*' ∉ raw) : (xs : JsArr) → exposesArr raw (maskArr sf xs) = false
  | .nil => rfl
  | .cons x t => by
      simp only [maskArr, exposesArr, Bool.or_eq_false_iff]
      exact ⟨exposes_mask_v raw sf h2 hstar x, exposes_mask_arr raw sf h2 hstar t⟩

theorem exposes_mask_obj (raw : List Char) (sf : List (List Char)) (h2 : 2 ≤ raw.length)
    (hstar : '*' ∉ raw) : (kvs : JsObj) → exposesObj raw (maskObj sf kvs) = false
  | .nil => rfl
  | .cons k v t => by
      simp only [maskObj, exposesObj]
      by_cases hk : isSensitiveField k sf = true
      · rw [if_pos hk]
        simp [exposesObj, exposesV, not_infix_defaultMask raw h2 hstar v,
          exposes_mask_obj raw sf h2 hstar t]
      · rw [if_neg hk]
        have hkw : hasSensitiveKeyword k = false :=
          hasKeyword_of_isSensitive_false k sf (by simpa using hk)
        simp only [exposesObj, hkw, Bool.false_and, Bool.false_or, Bool.or_eq_false_iff]
        refine ⟨?_, exposes_mask_obj raw sf h2 hstar t⟩
        match v with
        | .vNull => rfl
        | .vUndef => rfl
        | .vBool _ => rfl
        | .vNum _ => rfl
        | .vStr _ => rfl
        | .vArr xs => exact exposes_mask_v raw sf h2 hstar (.vArr xs)
        | .vObj kvs2 => exact exposes_mask_v raw sf h2 hstar (.vObj kvs2)

end

theorem exposes_falsy (raw : List Char) (v : JsValue) (h : isFalsy v = true) :
    exposesV raw v = false := by
  cases v <;> first | rfl | simp [isFalsy] at h

/-- C2 (counterexample): with neither `sensitiveFields` nor a
`customSensitiveHandler` configured, `_processSensitiveData` returns the
payload unchanged, so the raw value of a field named `password` (which
contains a built-in keyword) survives redaction verbatim. -/
theorem C2_redaction_counterexample :
    processSensitiveData none none 0
        (.vObj (.cons "password".data (.vStr "hunter22".data) .nil)) =
      .vObj (.cons "password".data (.vStr "hunter22".data) .nil) ∧
    exposesV "hunter22".data
        (.vObj (.cons "password".data (.vStr "hunter22".data) .nil)) = true := by
  constructor
  · rfl
  · decide

/-- C2 (amended): whenever a non-empty `sensitiveFields` list is
configured and no custom handler is set, the output of
`_processSensitiveData` never carries, in any field (at any depth) whose
lowercased name contains a built-in keyword, a string value containing a
given raw value — for every raw value of length at least two that
contains no `'*'` (a value that is its own mask pattern is trivially its
own redaction). -/
theorem C2_redaction_amended (sf : List (List Char)) (hsf : sf ≠ []) (v : JsValue)
    (raw : List Char) (fuel : Nat) (h2 : 2 ≤ raw.length) (hstar : '*' ∉ raw) :
    exposesV raw (processSensitiveData (some sf) none fuel v) = false := by
  unfold processSensitiveData
  by_cases hf : isFalsy v = true
  · rw [if_pos hf]
    exact exposes_falsy raw v hf
  · rw [if_neg hf]
    simp only [Option.isNone_some, Option.isNone_none, Bool.false_and, Bool.and_true,
      Bool.false_eq_true, if_false, Bool.and_self]
    rw [if_pos (by cases sf with | nil => exact absurd rfl hsf | cons a t => simp)]
    exact exposes_mask_v raw sf h2 hstar v

/-- C2 (witness): the amended theorem instantiated on a payload with a
`password` field. -/
theorem C2_redaction_witness :
    exposesV "hunter22".data
        (processSensitiveData (some ["email".data]) none 0
          (.vObj (.cons "password".data (.vStr "hunter22".data) .nil))) = false :=
  C2_redaction_amended ["email".data] (by simp) _ "hunter22".data 0 (by simp) (by decide)

/-- C6 (counterexample): the default mask sends the empty string to `"*"`
(the `length <= 1` branch), not to `""` as the claim states for empty
input. -/
theorem C6_mask_counterexample :
    defaultSensitiveMask (.vStr []) = ['*'] ∧ defaultSensitiveMask (.vStr []) ≠ [] := by
  refine ⟨rfl, by decide⟩

/-- C6 (amended): as a function of the stringified value, the default
mask satisfies: `null`/`undefined` map to `""`; any string of length at
most 1 — including the empty string — maps to `"*"`; length 2 to 3 maps
to the first character followed by stars; longer input maps to first
character, stars, last character; and for non-empty input the output
length equals the input length. -/
theorem C6_mask_amended (s : List Char) :
    (defaultSensitiveMask .vNull = [] ∧ defaultSensitiveMask .vUndef = []) ∧
    (∀ t : List Char, defaultSensitiveMask (.vStr t) = maskBody t) ∧
    (s.length ≤ 1 → maskBody s = ['*']) ∧
    (2 ≤ s.length → s.length ≤ 3 →
      maskBody s = s.take 1 ++ List.replicate (s.length - 1) '*') ∧
    (4 ≤ s.length →
      maskBody s = s.take 1 ++ List.replicate (s.length - 2) '*' ++ s.drop (s.length - 1)) ∧
    (1 ≤ s.length → (maskBody s).length = s.length) := by
  refine ⟨⟨rfl, rfl⟩, fun t => rfl, ?_, ?_, ?_, ?_⟩
  · intro h1
    simp [maskBody, h1]
  · intro hlo hhi
    rw [maskBody, if_neg (by omega), if_pos hhi]
  · intro h4
    rw [maskBody, if_neg (by omega), if_neg (by omega)]
  · intro h1
    unfold maskBody
    by_cases hle1 : s.length ≤ 1
    · rw [if_pos hle1]
      simp
      omega
    · by_cases hle3 : s.length ≤ 3
      · rw [if_neg hle1, if_pos hle3]
        simp only [List.length_append, List.length_take, List.length_replicate]
        omega
      · rw [if_neg hle1, if_neg hle3]
        simp only [List.length_append, List.length_take, List.length_replicate,
          List.length_drop]
        omega

/-- C6 (witness): the amended mask specification instantiated at
`"abcd"`, whose mask is `"a**d"`. -/
theorem C6_mask_witness :
    maskBody "abcd".data = "abcd".data.take 1 ++ List.replicate 2 '*' ++ "abcd".data.drop 3 :=
  (C6_mask_amended "abcd".data).2.2.2.2.1 (by decide)

/-- C10 (confirmed): when a field's name is sensitive and its value is an
object or an array, `_maskSensitiveFields` does not recurse into the
value: the entire value is replaced by the default scalar mask of its
stringification, and for a plain object that stringification is
`"[object Object]"`. -/
theorem C10_sensitive_value_destroyed (sf : List (List Char)) (k : List Char) (v : JsValue)
    (t : JsObj) (hk : isSensitiveField k sf = true)
    (hov : (match v with | .vObj _ => true | .vArr _ => true | _ => false) = true) :
    maskObj sf (.cons k v t) =
      .cons k (.vStr (defaultSensitiveMask v)) (maskObj sf t) ∧
    defaultSensitiveMask v = maskBody (jsToString v) ∧
    (∀ kvs : JsObj, jsToString (.vObj kvs) = "[object Object]".data) := by
  refine ⟨?_, ?_, fun kvs => rfl⟩
  · simp only [maskObj, if_pos hk]
  · match v, hov with
    | .vObj kvs, _ => rfl
    | .vArr xs, _ => rfl

/-- C10 (witness): a `token`-named field holding the object
`{inner: "data123"}` is replaced by the mask of `"[object Object]"`,
destroying the nested non-sensitive field. -/
theorem C10_sensitive_value_destroyed_witness :
    maskObj []
        (.cons "token".data (.vObj (.cons "inner".data (.vStr "data123".data) .nil)) .nil) =
      .cons "token".data
        (.vStr (defaultSensitiveMask (.vObj (.cons "inner".data (.vStr "data123".data) .nil))))
        (maskObj [] .nil) :=
  (C10_sensitive_value_destroyed [] "token".data
    (.vObj (.cons "inner".data (.vStr "data123".data) .nil)) .nil (by decide) rfl).1

end Redaction

namespace Sampling

open Redaction

/-- Embedding of `String.prototype.split('.')` helper: accumulates the current
segment. -/
def splitDotAux : List Char → List Char → List (List Char)
  | [], acc => [acc.reverse]
  | c :: rest, acc =>
      if c = '.' then acc.reverse :: splitDotAux rest [] else splitDotAux rest (c :: acc)

/-- Embedding of `path.split('.')` of `Utils.safeGet`. -/
def splitDot (s : List Char) : List (List Char) := splitDotAux s []

/-- Property lookup on a plain object (`result[key]`); `none` models
`undefined`. -/
def objLookup : JsObj → List Char → Option JsValue
  | .nil, _ => none
  | .cons k v t, key => if k = key then some v else objLookup t key

/-- The key-walking loop of `Utils.safeGet`: `undefined`/`null`
intermediates yield the default (`none`), indexing a primitive yields
`undefined`, and a final `undefined` yields the default. -/
def safeGetWalk : JsValue → List (List Char) → Option JsValue
  | v, [] => some v
  | .vObj kvs, k :: ks =>
      match objLookup kvs k with
      | some w => safeGetWalk w ks
      | none => none
  | _, _ :: _ => none

/-- Embedding of `Utils.safeGet obj path` (with the default value `undefined`): falsy
`obj` or empty `path` short-circuit to the default. -/
def safeGet (v : JsValue) (path : List Char) : Option JsValue :=
  if isFalsy v || path.isEmpty then none else safeGetWalk v (splitDot path)

/-- JavaScript `ToInt32` (the effect of `|`, `&`, `<<` operands). -/
def toInt32 (n : Int) : Int := (n + 2147483648) % 4294967296 - 2147483648

/-- One step of `SamplingService.hashString`:
`hash = (hash << 5) - hash + char; hash = hash & hash`. -/
def hashStep (h : Int) (c : Nat) : Int := toInt32 (toInt32 (toInt32 h * 32) - h + c)

/-- Embedding of `SamplingService.hashString`: fold the step over the character codes,
then `Math.abs`. -/
def hashString (s : List Char) : Nat :=
  (s.foldl (fun h c => hashStep h c.toNat) 0).natAbs

/-- Embedding of `(hash % 1000) / 1000` of `consistentSampling`. -/
def normalizedHash (s : List Char) : ℚ := ((hashString s % 1000 : Nat) : ℚ) / 1000

/-- The pure decision of consistent sampling: the normalized hash of the
stringified key value is below the rate. -/
def consistentDecision (v : JsValue) (rate : ℚ) : Bool :=
  normalizedHash (jsToString v) < rate

/-- Embedding of `SamplingStrategy` enum of `sampling-service.ts`. -/
inductive SamplingStrategy where
  | random
  | consistent
  | rateLimiting
deriving DecidableEq

/-- Embedding of `SamplingOptions` of `sampling-service.ts`. -/
structure SamplingOptions where
  strategy : SamplingStrategy
  rate : ℚ
  consistentKey : Option (List Char) := none
  timeWindow : Option Nat := none
  maxEventsPerWindow : Option Nat := none

/-- JavaScript `a || d` for an optional numeric config field (`0` and
absent both fall back to the default). -/
def orDefaultNat (o : Option Nat) (d : Nat) : Nat :=
  match o with
  | some n => if n = 0 then d else n
  | none => d

/-- Association-list lookup (string-keyed record access). -/
def lookupAssoc {α : Type} : List (List Char × α) → List Char → Option α
  | [], _ => none
  | (k', v') :: t, k => if k' = k then some v' else lookupAssoc t k

/-- Association-list update (string-keyed record assignment). -/
def setAssoc {α : Type} : List (List Char × α) → List Char → α → List (List Char × α)
  | [], k, v => [(k, v)]
  | (k', v') :: t, k, v => if k' = k then (k, v) :: t else (k', v') :: setAssoc t k v

/-- Mutable state of `SamplingService`: per-event-type configuration and
the rolling windows of accept-timestamps (`eventCounts` exists in the
source but is only ever reset, never read). -/
structure SamplingState where
  eventConfigs : List (List Char × SamplingOptions) := []
  eventCounts : List (List Char × Nat) := []
  eventTimestamps : List (List Char × List Nat) := []

/-- The stream of `Math.random()` draws, with the position of the next
draw. -/
structure Rng where
  stream : Nat → ℚ
  idx : Nat

/-- Embedding of `SamplingService.randomSampling`: `Math.random() < rate`, consuming
one draw. -/
def randomSampling (rate : ℚ) (r : Rng) : Bool × Rng :=
  (r.stream r.idx < rate, { r with idx := r.idx + 1 })

/-- Embedding of `SamplingService.configureSampling`: rejects a rate outside `[0,1]`
(leaving the previous configuration untouched), else stores the options
with defaulted `timeWindow`, `maxEventsPerWindow`. -/
def configureSampling (st : SamplingState) (eventType : List Char)
    (options : SamplingOptions) : SamplingState :=
  if options.rate < 0 ∨ 1 < options.rate then st
  else
    { st with
        eventConfigs := setAssoc st.eventConfigs eventType
          { options with
              timeWindow := some (orDefaultNat options.timeWindow 60000),
              maxEventsPerWindow := some (orDefaultNat options.maxEventsPerWindow 100) } }

/-- Embedding of `SamplingService.consistentSampling`: falls back to random sampling
without event data, without a (non-empty) consistent key, or when the
key's value is absent; otherwise decides purely by the hashed key
value. -/
def consistentSampling (st : SamplingState) (rng : Rng) (eventData : Option JsValue)
    (config : SamplingOptions) : Bool × SamplingState × Rng :=
  let fb :=
    let p := randomSampling config.rate rng
    (p.1, st, p.2)
  match eventData with
  | none => fb
  | some d =>
      if isFalsy d then fb
      else
        match config.consistentKey with
        | none => fb
        | some ck =>
            if ck.isEmpty then fb
            else
              match safeGet d ck with
              | none => fb
              | some kv => (consistentDecision kv config.rate, st, rng)

/-- Embedding of `SamplingService.rateLimitingSampling`: evict timestamps older than
the window; below the cap, accept and record; at the cap, fall back to a
random draw at `rate` (recording on success). -/
def rateLimitingSampling (st : SamplingState) (rng : Rng) (eventType : List Char)
    (config : SamplingOptions) (now : Nat) : Bool × SamplingState × Rng :=
  let tw := orDefaultNat config.timeWindow 60000
  let maxEvents := orDefaultNat config.maxEventsPerWindow 100
  let ts := (lookupAssoc st.eventTimestamps eventType).getD []
  let ts := ts.filter (fun t => now - t < tw)
  if ts.length < maxEvents then
    (true, { st with eventTimestamps := setAssoc st.eventTimestamps eventType (ts ++ [now]) },
      rng)
  else
    let p := randomSampling config.rate rng
    if p.1 then
      (true, { st with eventTimestamps := setAssoc st.eventTimestamps eventType (ts ++ [now]) },
        p.2)
    else
      (false, { st with eventTimestamps := setAssoc st.eventTimestamps eventType ts }, p.2)

/-- Embedding of `SamplingService.shouldSampleEvent`: no configuration means sample;
`rate >= 1` always samples and `rate <= 0` never samples; otherwise the
configured strategy decides. -/
def shouldSampleEvent (st : SamplingState) (rng : Rng) (eventType : List Char)
    (eventData : Option JsValue) (now : Nat) : Bool × SamplingState × Rng :=
  match lookupAssoc st.eventConfigs eventType with
  | none => (true, st, rng)
  | some config =>
      if 1 ≤ config.rate then (true, st, rng)
      else if config.rate ≤ 0 then (false, st, rng)
      else
        match config.strategy with
        | .random =>
            let p := randomSampling config.rate rng
            (p.1, st, p.2)
        | .consistent => consistentSampling st rng eventData config
        | .rateLimiting => rateLimitingSampling st rng eventType config now

/-- Repeated calls of `shouldSampleEvent` for one event type at the given
times (a burst), collecting the decisions. -/
def runBurst (eventType : List Char) :
    SamplingState → Rng → List Nat → List Bool × SamplingState × Rng
  | st, rng, [] => ([], st, rng)
  | st, rng, t :: ts =>
      let r1 := shouldSampleEvent st rng eventType none t
      let r2 := runBurst eventType r1.2.1 r1.2.2 ts
      (r1.1 :: r2.1, r2.2)

end Sampling

namespace Sampling

open Redaction

theorem normalizedHash_nonneg (s : List Char) : 0 ≤ normalizedHash s := by
  unfold normalizedHash
  positivity

theorem normalizedHash_lt_one (s : List Char) : normalizedHash s < 1 := by
  unfold normalizedHash
  rw [div_lt_one (by norm_num)]
  exact_mod_cast Nat.mod_lt _ (by norm_num)

theorem lookupAssoc_setAssoc {α : Type} (l : List (List Char × α)) (k : List Char) (v : α) :
    lookupAssoc (setAssoc l k v) k = some v := by
  induction l with
  | nil => simp [setAssoc, lookupAssoc]
  | cons p t ih =>
      obtain ⟨k', v'⟩ := p
      by_cases h : k' = k
      · simp [setAssoc, h, lookupAssoc]
      · simp [setAssoc, h, lookupAssoc, ih]

theorem orDefaultNat_pos (n d : Nat) (h : 0 < n) : orDefaultNat (some n) d = n := by
  simp [orDefaultNat]
  omega

/-- C8: the consistent-sampling decision is the pure function
`normalizedHash (String keyValue) < rate` whenever the strategy is
`consistent` and the consistent key's value is present in the event data:
it does not depend on the sampling state, the random stream, the call
time or the call count, so any two calls with the same key value agree. -/
theorem C8_consistent_deterministic (st1 st2 : SamplingState) (rng1 rng2 : Rng)
    (eventType : List Char) (d : JsValue) (cfg : SamplingOptions) (ck : List Char)
    (kv : Redaction.JsValue) (now1 now2 : Nat)
    (hc1 : lookupAssoc st1.eventConfigs eventType = some cfg)
    (hc2 : lookupAssoc st2.eventConfigs eventType = some cfg)
    (hstrat : cfg.strategy = .consistent)
    (hck : cfg.consistentKey = some ck) (hckne : ck.isEmpty = false)
    (hd : isFalsy d = false)
    (hkv : safeGet d ck = some kv) :
    (shouldSampleEvent st1 rng1 eventType (some d) now1).1 = consistentDecision kv cfg.rate ∧
    (shouldSampleEvent st1 rng1 eventType (some d) now1).1 =
      (shouldSampleEvent st2 rng2 eventType (some d) now2).1 := by
  have key : ∀ (st : SamplingState) (rng : Rng) (now : Nat),
      lookupAssoc st.eventConfigs eventType = some cfg →
      (shouldSampleEvent st rng eventType (some d) now).1 = consistentDecision kv cfg.rate := by
    intro st rng now hc
    simp only [shouldSampleEvent, hc]
    by_cases h1 : 1 ≤ cfg.rate
    · rw [if_pos h1]
      have hdec : consistentDecision kv cfg.rate = true :=
        decide_eq_true (lt_of_lt_of_le (normalizedHash_lt_one _) h1)
      exact hdec.symm
    · rw [if_neg h1]
      by_cases h0 : cfg.rate ≤ 0
      · rw [if_pos h0]
        have hdec : consistentDecision kv cfg.rate = false := by
          simp only [consistentDecision, decide_eq_false_iff_not, not_lt]
          exact le_trans h0 (normalizedHash_nonneg _)
        exact hdec.symm
      · rw [if_neg h0, hstrat]
        simp only [consistentSampling, hd, Bool.false_eq_true, if_false, hck, hckne, hkv]
  exact ⟨key st1 rng1 now1 hc1, (key st1 rng1 now1 hc1).trans (key st2 rng2 now2 hc2).symm⟩

/-- Concrete consistent-sampling configuration used by the C8 witness. -/
def cfgW : SamplingOptions :=
  { strategy := .consistent, rate := 1 / 2, consistentKey := some "uid".data }

/-- Concrete event payload used by the C8 witness. -/
def dW : JsValue := .vObj (.cons "uid".data (.vStr "u1".data) .nil)

/-- C8 (witness): two calls with different states, random streams and
times agree and equal the pure hash decision. -/
theorem C8_consistent_deterministic_witness :
    (shouldSampleEvent ⟨[("custom".data, cfgW)], [], []⟩ ⟨fun _ => 0, 0⟩
        "custom".data (some dW) 5).1 = consistentDecision (.vStr "u1".data) cfgW.rate ∧
    (shouldSampleEvent ⟨[("custom".data, cfgW)], [], []⟩ ⟨fun _ => 0, 0⟩
        "custom".data (some dW) 5).1 =
      (shouldSampleEvent ⟨[("custom".data, cfgW)], [("x".data, 3)], [("custom".data, [1, 2])]⟩
        ⟨fun _ => 1, 7⟩ "custom".data (some dW) 99).1 :=
  C8_consistent_deterministic _ _ _ _ "custom".data dW cfgW "uid".data (.vStr "u1".data) 5 99
    rfl rfl rfl rfl rfl rfl rfl

theorem shouldSample_ge_one (st : SamplingState) (rng : Rng) (eventType : List Char)
    (eventData : Option JsValue) (now : Nat) (cfg : SamplingOptions)
    (hc : lookupAssoc st.eventConfigs eventType = some cfg) (h1 : 1 ≤ cfg.rate) :
    shouldSampleEvent st rng eventType eventData now = (true, st, rng) := by
  simp only [shouldSampleEvent, hc]
  rw [if_pos h1]

theorem runBurst_all_true_of_ge_one (eventType : List Char) (cfg : SamplingOptions)
    (h1 : 1 ≤ cfg.rate) :
    ∀ (times : List Nat) (st : SamplingState) (rng : Rng),
      lookupAssoc st.eventConfigs eventType = some cfg →
      (runBurst eventType st rng times).1 = List.replicate times.length true := by
  intro times
  induction times with
  | nil => intro st rng _; rfl
  | cons t ts ih =>
      intro st rng hc
      simp only [runBurst, shouldSample_ge_one st rng eventType none t cfg hc h1,
        List.length_cons, List.replicate_succ]
      exact congrArg (true :: ·) (ih st rng hc)

theorem shouldSample_rateLimiting_accept (st : SamplingState) (rng : Rng)
    (eventType : List Char) (cfg : SamplingOptions) (now : Nat) (N W : Nat) (prev : List Nat)
    (hc : lookupAssoc st.eventConfigs eventType = some cfg)
    (hlo : 0 < cfg.rate) (hhi : cfg.rate < 1)
    (hstrat : cfg.strategy = .rateLimiting)
    (hN : cfg.maxEventsPerWindow = some N) (hW : cfg.timeWindow = some W)
    (hN0 : 0 < N) (hW0 : 0 < W)
    (hts : (lookupAssoc st.eventTimestamps eventType).getD [] = prev)
    (hkeep : prev.filter (fun x => now - x < W) = prev)
    (hlen : prev.length < N) :
    shouldSampleEvent st rng eventType none now =
      (true,
        { st with eventTimestamps := setAssoc st.eventTimestamps eventType (prev ++ [now]) },
        rng) := by
  simp only [shouldSampleEvent, hc]
  rw [if_neg (not_le.mpr hhi), if_neg (not_le.mpr hlo), hstrat]
  simp only [rateLimitingSampling, hN, hW, orDefaultNat_pos N _ hN0, orDefaultNat_pos W _ hW0,
    hts, hkeep]
  rw [if_pos hlen]

theorem runBurst_first_accepted (eventType : List Char) (cfg : SamplingOptions)
    (N W : Nat) (allT : List Nat)
    (hstrat : cfg.strategy = .rateLimiting)
    (hlo : 0 < cfg.rate) (hhi : cfg.rate < 1)
    (hN : cfg.maxEventsPerWindow = some N) (hW : cfg.timeWindow = some W)
    (hN0 : 0 < N) (hW0 : 0 < W)
    (hwin : ∀ t ∈ allT, ∀ t' ∈ allT, t' - t < W) :
    ∀ (times prev : List Nat) (st : SamplingState) (rng : Rng),
      lookupAssoc st.eventConfigs eventType = some cfg →
      (lookupAssoc st.eventTimestamps eventType).getD [] = prev →
      (∀ t ∈ prev, t ∈ allT) → (∀ t ∈ times, t ∈ allT) →
      (runBurst eventType st rng times).1.take (N - prev.length) =
        List.replicate (min (N - prev.length) times.length) true := by
  intro times
  induction times with
  | nil =>
      intro prev st rng _ _ _ _
      simp [runBurst]
  | cons t0 ts ih =>
      intro prev st rng hc hts hprevmem htimesmem
      by_cases hfull : N - prev.length = 0
      · simp [hfull]
      · have hlen : prev.length < N := by omega
        have hkeep : prev.filter (fun x => t0 - x < W) = prev := by
          apply List.filter_eq_self.mpr
          intro b hb
          exact decide_eq_true (hwin b (hprevmem b hb) t0 (htimesmem t0 (by simp)))
        have hstep := shouldSample_rateLimiting_accept st rng eventType cfg t0 N W prev hc hlo
          hhi hstrat hN hW hN0 hW0 hts hkeep hlen
        simp only [runBurst, hstep]
        have hts' :
            (lookupAssoc
              (setAssoc st.eventTimestamps eventType (prev ++ [t0])) eventType).getD [] =
              prev ++ [t0] := by
          simp [lookupAssoc_setAssoc]
        have ihr := ih (prev ++ [t0])
          { st with eventTimestamps := setAssoc st.eventTimestamps eventType (prev ++ [t0]) }
          rng hc hts'
          (by
            intro b hb
            rcases List.mem_append.mp hb with hb | hb
            · exact hprevmem b hb
            · rw [List.mem_singleton.mp hb]
              exact htimesmem t0 (by simp))
          (fun b hb => htimesmem b (by simp [hb]))
        simp only [List.length_append, List.length_singleton] at ihr
        rw [show N - prev.length = (N - (prev.length + 1)) + 1 by omega, List.take_succ_cons,
          List.length_cons,
          show min (N - (prev.length + 1) + 1) (ts.length + 1) =
            (min (N - (prev.length + 1)) ts.length) + 1 by omega,
          List.replicate_succ]
        exact congrArg (true :: ·) ihr

/-- Rate-limiting configuration with `rate = 0` (C9 counterexample). -/
def cfgZeroRate : SamplingOptions :=
  { strategy := .rateLimiting, rate := 0, timeWindow := some 60000,
    maxEventsPerWindow := some 1 }

/-- Rate-limiting configuration with `rate = 1/2` (C9 witness). -/
def cfgHalfRate : SamplingOptions :=
  { strategy := .rateLimiting, rate := 1 / 2, timeWindow := some 60000,
    maxEventsPerWindow := some 2 }

/-- C9 (counterexample): with `rate = 0` (inside the claimed range
`[0,1]`), `maxEventsPerWindow = 1` and a burst of 2 calls inside one
window, no call at all is accepted: `shouldSampleEvent` short-circuits on
`rate <= 0` before the rate-limiting window logic is ever consulted, so
the first `N` calls are not accepted. -/
theorem C9_rate_limiting_counterexample :
    (runBurst "evt".data ⟨[("evt".data, cfgZeroRate)], [], []⟩
        ⟨fun _ => 0, 0⟩ [0, 1]).1 = [false, false] := by
  rfl

/-- C9 (amended): for a rate-limiting configuration with
`maxEventsPerWindow = N > 0`, `timeWindow = W > 0` and a *positive* rate,
starting from an empty window, in any burst of calls lying within one
time window of each other the first `N` calls are all accepted. -/
theorem C9_rate_limiting_amended (eventType : List Char) (cfg : SamplingOptions)
    (st : SamplingState) (rng : Rng) (N W : Nat) (times : List Nat)
    (hc : lookupAssoc st.eventConfigs eventType = some cfg)
    (hstrat : cfg.strategy = .rateLimiting)
    (hrate : 0 < cfg.rate)
    (hN : cfg.maxEventsPerWindow = some N) (hN0 : 0 < N)
    (hW : cfg.timeWindow = some W) (hW0 : 0 < W)
    (hts : (lookupAssoc st.eventTimestamps eventType).getD [] = [])
    (hwin : ∀ t ∈ times, ∀ t' ∈ times, t' - t < W) :
    (runBurst eventType st rng times).1.take N =
      List.replicate (min N times.length) true := by
  by_cases h1 : 1 ≤ cfg.rate
  · rw [runBurst_all_true_of_ge_one eventType cfg h1 times st rng hc, List.take_replicate]
  · have := runBurst_first_accepted eventType cfg N W times hstrat hrate (not_le.mp h1)
      hN hW hN0 hW0 hwin times [] st rng hc hts (by simp) (fun t ht => ht)
    simpa using this

/-- C9 (witness): `N = 2`, rate `1/2`, burst `[0, 1, 2]` inside one
window: the first two calls are accepted. -/
theorem C9_rate_limiting_witness :
    (runBurst "evt".data ⟨[("evt".data, cfgHalfRate)], [], []⟩
        ⟨fun _ => 1, 0⟩ [0, 1, 2]).1.take 2 = List.replicate (min 2 3) true :=
  C9_rate_limiting_amended "evt".data _ _ _ 2 60000 [0, 1, 2] rfl rfl
    (by norm_num [cfgHalfRate]) rfl (by norm_num) rfl (by norm_num) rfl (by decide)

end Sampling

namespace Tracker

open Redaction

/-- Embedding of `OperationStatus` of `types.ts`. -/
inductive OperationStatus where
  | started
  | inProgress
  | completed
  | failed
  | cancelled
  | interrupted
deriving DecidableEq

/-- Whether a status is terminal (completed/failed/cancelled/interrupted). -/
def isTerminal : OperationStatus → Bool
  | .completed => true
  | .failed => true
  | .cancelled => true
  | .interrupted => true
  | _ => false

/-- A step of an operation chain (`{stepName, stepData, timestamp}`). -/
structure Step where
  stepName : List Char
  stepData : JsValue
  timestamp : Nat

/-- An `OperationEvent` object as stored in `activeOperations` and handed
to the reporter. JavaScript objects and arrays are reference values: the
`steps` array is represented by `stepsRef`, an address into a separate
steps heap, so that the sharing between the stored operation and emitted
events is explicit. -/
structure OperationEvent where
  operationId : List Char
  operationName : List Char
  status : OperationStatus
  startTime : Nat
  endTime : Option Nat := none
  duration : Option Int := none
  metadata : JsValue
  stepsRef : Nat
  resultData : Option JsValue := none
  cancelReason : Option (List Char) := none
  timestamp : Nat

/-- What the reporter received: either the very heap object stored in the
active map (`startOperation`, `completeOperation`, `cancelOperation`,
page unload all pass `operation` itself) or a shallow copy
(`addOperationStep` spreads the operation, still sharing `steps`). -/
inductive Emission where
  | byRef (addr : Nat)
  | snap (ev : OperationEvent)

/-- Heap-explicit state of `OperationTracker`: the object heap, the heap
of `steps` arrays, the `activeOperations` map (id to object address), and
the chronological list of emissions made so far. -/
structure TrackerState where
  objHeap : List OperationEvent := []
  stepsHeap : List (List Step) := []
  active : List (List Char × Nat) := []
  emitted : List Emission := []

/-- List indexing used for the heaps (`none` out of bounds). -/
def nth {α : Type} : List α → Nat → Option α
  | [], _ => none
  | x :: _, 0 => some x
  | _ :: t, n + 1 => nth t n

/-- In-place update used for the heaps (no-op out of bounds). -/
def setNth {α : Type} : List α → Nat → α → List α
  | [], _, _ => []
  | _ :: t, 0, y => y :: t
  | x :: t, n + 1, y => x :: setNth t n y

/-- Embedding of `Map.delete` on the id-keyed active map. -/
def removeAssoc {α : Type} : List (List Char × α) → List Char → List (List Char × α)
  | [], _ => []
  | (k', v') :: t, k => if k' = k then t else (k', v') :: removeAssoc t k

/-- Embedding of `OperationTracker.startOperation`: empty name fails with `''`;
otherwise a fresh operation object (STARTED, empty steps) is allocated,
registered in the active map and passed, by reference, to the reporter.
The randomly generated id is an input of the model. -/
def startOperation (s : TrackerState) (freshId operationName : List Char)
    (metadata : JsValue) (now : Nat) : TrackerState × List Char :=
  if operationName.isEmpty then (s, [])
  else
    let stepsRef := s.stepsHeap.length
    let op : OperationEvent :=
      { operationId := freshId, operationName, status := .started, startTime := now,
        metadata, stepsRef, timestamp := now }
    let addr := s.objHeap.length
    ({ objHeap := s.objHeap ++ [op],
       stepsHeap := s.stepsHeap ++ [[]],
       active := Sampling.setAssoc s.active freshId addr,
       emitted := s.emitted ++ [.byRef addr] }, freshId)

/-- Embedding of `OperationTracker.addOperationStep`: empty id or step name, or an
unknown id, fail with `false`; otherwise the step is pushed onto the
shared steps array, the stored object is updated to IN_PROGRESS, and a
shallow copy (sharing `steps`) is emitted. -/
def addOperationStep (s : TrackerState) (operationId stepName : List Char)
    (stepData : JsValue) (now : Nat) : TrackerState × Bool :=
  if operationId.isEmpty || stepName.isEmpty then (s, false)
  else
    match Sampling.lookupAssoc s.active operationId with
    | none => (s, false)
    | some addr =>
        match nth s.objHeap addr with
        | none => (s, false)
        | some op =>
            let step : Step := { stepName, stepData, timestamp := now }
            let op' := { op with status := .inProgress, timestamp := now }
            ({ s with
                objHeap := setNth s.objHeap addr op',
                stepsHeap := setNth s.stepsHeap op.stepsRef
                  ((nth s.stepsHeap op.stepsRef).getD [] ++ [step]),
                emitted := s.emitted ++ [.snap op'] }, true)

/-- Embedding of `OperationTracker.completeOperation`: empty or unknown id fail with
`false`; otherwise the stored object is mutated to its terminal state
(endTime, duration = endTime - startTime, COMPLETED/FAILED, resultData),
emitted by reference, and removed from the active map. -/
def completeOperation (s : TrackerState) (operationId : List Char) (resultData : JsValue)
    (isSuccess : Bool) (now : Nat) : TrackerState × Bool :=
  if operationId.isEmpty then (s, false)
  else
    match Sampling.lookupAssoc s.active operationId with
    | none => (s, false)
    | some addr =>
        match nth s.objHeap addr with
        | none => (s, false)
        | some op =>
            let op' :=
              { op with
                  status := if isSuccess then .completed else .failed,
                  endTime := some now,
                  duration := some ((now : Int) - (op.startTime : Int)),
                  resultData := some resultData,
                  timestamp := now }
            ({ s with
                objHeap := setNth s.objHeap addr op',
                emitted := s.emitted ++ [.byRef addr],
                active := removeAssoc s.active operationId }, true)

/-- Embedding of `OperationTracker.cancelOperation`: like completion, with status
CANCELLED and a stored cancel reason. -/
def cancelOperation (s : TrackerState) (operationId reason : List Char)
    (now : Nat) : TrackerState × Bool :=
  if operationId.isEmpty then (s, false)
  else
    match Sampling.lookupAssoc s.active operationId with
    | none => (s, false)
    | some addr =>
        match nth s.objHeap addr with
        | none => (s, false)
        | some op =>
            let op' :=
              { op with
                  status := .cancelled,
                  endTime := some now,
                  duration := some ((now : Int) - (op.startTime : Int)),
                  cancelReason := some reason,
                  timestamp := now }
            ({ s with
                objHeap := setNth s.objHeap addr op',
                emitted := s.emitted ++ [.byRef addr],
                active := removeAssoc s.active operationId }, true)

/-- One iteration of the page-unload sweep: mutate the operation at the
entry's address to INTERRUPTED (endTime, duration computed) and emit it
by reference. -/
def unloadStep (now : Nat) (acc : TrackerState) (p : List Char × Nat) : TrackerState :=
  match nth acc.objHeap p.2 with
  | none => acc
  | some op =>
      let op' : OperationEvent :=
        { op with
            status := .interrupted,
            endTime := some now,
            duration := some ((now : Int) - (op.startTime : Int)),
            timestamp := now }
      { acc with
          objHeap := setNth acc.objHeap p.2 op',
          emitted := acc.emitted ++ [.byRef p.2] }

/-- Embedding of `OperationTracker.handlePageUnload`: every still-active operation is
mutated to INTERRUPTED, emitted, and the active map is cleared. -/
def handlePageUnload (s : TrackerState) (now : Nat) : TrackerState :=
  let s' := s.active.foldl (unloadStep now) s
  { s' with active := [] }

/-- Embedding of `OperationTracker.getOperationStatus`: status of a still-active
operation, `null` otherwise. -/
def getOperationStatus (s : TrackerState) (operationId : List Char) : Option OperationStatus :=
  if operationId.isEmpty then none
  else
    match Sampling.lookupAssoc s.active operationId with
    | none => none
    | some addr => (nth s.objHeap addr).map (·.status)

/-- The value a consumer of an emitted event observes at a given state:
object fields plus the materialized shared steps array. -/
structure ObsEvent where
  operationId : List Char
  operationName : List Char
  status : OperationStatus
  startTime : Nat
  endTime : Option Nat
  duration : Option Int
  steps : List Step
  resultData : Option JsValue
  cancelReason : Option (List Char)
  timestamp : Nat

/-- Materialize an operation object at a state. -/
def materialize (s : TrackerState) (op : OperationEvent) : ObsEvent :=
  { operationId := op.operationId, operationName := op.operationName, status := op.status,
    startTime := op.startTime, endTime := op.endTime, duration := op.duration,
    steps := (nth s.stepsHeap op.stepsRef).getD [], resultData := op.resultData,
    cancelReason := op.cancelReason, timestamp := op.timestamp }

/-- Observe an emission at a state (dereferencing shared objects). -/
def observe (s : TrackerState) : Emission → Option ObsEvent
  | .byRef addr => (nth s.objHeap addr).map (materialize s)
  | .snap ev => some (materialize s ev)

/-- The tracker operations a later caller can perform. -/
inductive Cmd where
  | start (freshId name : List Char) (metadata : JsValue) (now : Nat)
  | addStep (id stepName : List Char) (stepData : JsValue) (now : Nat)
  | complete (id : List Char) (resultData : JsValue) (isSuccess : Bool) (now : Nat)
  | cancel (id reason : List Char) (now : Nat)
  | unload (now : Nat)

/-- Apply one tracker operation. -/
def stepCmd (s : TrackerState) : Cmd → TrackerState
  | .start fid name md now => (startOperation s fid name md now).1
  | .addStep id sn sd now => (addOperationStep s id sn sd now).1
  | .complete id rd ok now => (completeOperation s id rd ok now).1
  | .cancel id r now => (cancelOperation s id r now).1
  | .unload now => handlePageUnload s now

/-- Apply a sequence of tracker operations. -/
def runCmds : TrackerState → List Cmd → TrackerState
  | s, [] => s
  | s, c :: cs => runCmds (stepCmd s c) cs

end Tracker

namespace Tracker

theorem nth_append_left {α : Type} (l1 l2 : List α) (i : Nat) (h : i < l1.length) :
    nth (l1 ++ l2) i = nth l1 i := by
  induction l1 generalizing i with
  | nil => simp at h
  | cons x t ih =>
      cases i with
      | zero => rfl
      | succ n => exact ih n (by simpa using h)

theorem nth_append_self {α : Type} (l : List α) (x : α) : nth (l ++ [x]) l.length = some x := by
  induction l with
  | nil => rfl
  | cons y t ih => simpa [nth] using ih

theorem nth_lt_length {α : Type} (l : List α) (i : Nat) (x : α) (h : nth l i = some x) :
    i < l.length := by
  induction l generalizing i with
  | nil => simp [nth] at h
  | cons y t ih =>
      cases i with
      | zero => simp
      | succ n =>
          have := ih n (by simpa [nth] using h)
          simpa using Nat.succ_lt_succ this

theorem nth_mem {α : Type} (l : List α) (i : Nat) (x : α) (h : nth l i = some x) : x ∈ l := by
  induction l generalizing i with
  | nil => simp [nth] at h
  | cons y t ih =>
      cases i with
      | zero => simp [nth] at h; simp [h]
      | succ n => exact List.mem_cons_of_mem y (ih n (by simpa [nth] using h))

theorem length_setNth {α : Type} (l : List α) (i : Nat) (y : α) :
    (setNth l i y).length = l.length := by
  induction l generalizing i with
  | nil => rfl
  | cons x t ih =>
      cases i with
      | zero => rfl
      | succ n => simpa [setNth] using ih n

theorem nth_setNth_self {α : Type} (l : List α) (i : Nat) (y : α) (h : i < l.length) :
    nth (setNth l i y) i = some y := by
  induction l generalizing i with
  | nil => simp at h
  | cons x t ih =>
      cases i with
      | zero => rfl
      | succ n => exact ih n (by simpa using h)

theorem nth_setNth_ne {α : Type} (l : List α) (i j : Nat) (y : α) (h : i ≠ j) :
    nth (setNth l i y) j = nth l j := by
  induction l generalizing i j with
  | nil => rfl
  | cons x t ih =>
      cases i with
      | zero =>
          cases j with
          | zero => exact absurd rfl h
          | succ m => rfl
      | succ n =>
          cases j with
          | zero => rfl
          | succ m => exact ih n m (by omega)

theorem lookupAssoc_eq_none {α : Type} (l : List (List Char × α)) (k : List Char)
    (h : k ∉ l.map Prod.fst) : Sampling.lookupAssoc l k = none := by
  induction l with
  | nil => rfl
  | cons p t ih =>
      obtain ⟨k', v'⟩ := p
      simp only [List.map_cons, List.mem_cons] at h
      push_neg at h
      have hne : k' ≠ k := fun hc => h.1 hc.symm
      simp only [Sampling.lookupAssoc, if_neg hne]
      exact ih h.2

theorem lookupAssoc_removeAssoc_self {α : Type} (l : List (List Char × α)) (k : List Char)
    (hnd : (l.map Prod.fst).Nodup) :
    Sampling.lookupAssoc (removeAssoc l k) k = none := by
  induction l with
  | nil => rfl
  | cons p t ih =>
      obtain ⟨k', v'⟩ := p
      simp only [List.map_cons, List.nodup_cons] at hnd
      by_cases h : k' = k
      · subst h
        simp only [removeAssoc, if_pos rfl]
        exact lookupAssoc_eq_none t k' hnd.1
      · simp only [removeAssoc, if_neg h, Sampling.lookupAssoc, if_neg h]
        exact ih hnd.2

end Tracker

namespace Tracker

open Redaction

/-- C5: lifecycle postconditions of the operation tracker.
(1) `startOperation` with a non-empty name returns the fresh id and
registers an operation with status STARTED and an empty step list, which
is also what the emitted start event observes.
(2) `addOperationStep` on a known id succeeds, sets status IN_PROGRESS
and appends exactly one step to the shared steps array.
(3) `completeOperation` on an unknown id returns `false` and changes
nothing.
(4) `completeOperation` on a known id succeeds, emits the final snapshot
with `endTime = now`, `duration = endTime - startTime` and status
COMPLETED/FAILED per `isSuccess`, and removes the id from the active map.
(5) The sequence start → addStep → complete(success) from an empty
tracker yields a final event with status COMPLETED, exactly one step and
non-negative duration (monotone clock). -/
theorem C5_operation_lifecycle (s : TrackerState) (fid name stepName opId : List Char)
    (meta stepData resultData : JsValue) (isSuccess : Bool) (addr : Nat)
    (op : OperationEvent) (t1 t2 t3 : Nat) :
    (name.isEmpty = false →
      (startOperation s fid name meta t1).2 = fid ∧
      Sampling.lookupAssoc (startOperation s fid name meta t1).1.active fid =
        some s.objHeap.length ∧
      observe (startOperation s fid name meta t1).1 (.byRef s.objHeap.length) =
        some { operationId := fid, operationName := name, status := .started,
               startTime := t1, endTime := none, duration := none, steps := [],
               resultData := none, cancelReason := none, timestamp := t1 }) ∧
    (opId.isEmpty = false → stepName.isEmpty = false →
      Sampling.lookupAssoc s.active opId = some addr →
      nth s.objHeap addr = some op →
      op.stepsRef < s.stepsHeap.length →
      (addOperationStep s opId stepName stepData t2).2 = true ∧
      nth (addOperationStep s opId stepName stepData t2).1.objHeap addr =
        some { op with status := .inProgress, timestamp := t2 } ∧
      (nth (addOperationStep s opId stepName stepData t2).1.stepsHeap op.stepsRef).getD [] =
        (nth s.stepsHeap op.stepsRef).getD [] ++ [⟨stepName, stepData, t2⟩]) ∧
    (Sampling.lookupAssoc s.active opId = none →
      completeOperation s opId resultData isSuccess t3 = (s, false)) ∧
    (opId.isEmpty = false →
      Sampling.lookupAssoc s.active opId = some addr →
      nth s.objHeap addr = some op →
      (s.active.map Prod.fst).Nodup →
      (completeOperation s opId resultData isSuccess t3).2 = true ∧
      (completeOperation s opId resultData isSuccess t3).1.emitted =
        s.emitted ++ [.byRef addr] ∧
      observe (completeOperation s opId resultData isSuccess t3).1 (.byRef addr) =
        some { operationId := op.operationId, operationName := op.operationName,
               status := if isSuccess then .completed else .failed,
               startTime := op.startTime, endTime := some t3,
               duration := some ((t3 : Int) - (op.startTime : Int)),
               steps := (nth s.stepsHeap op.stepsRef).getD [],
               resultData := some resultData, cancelReason := op.cancelReason,
               timestamp := t3 } ∧
      Sampling.lookupAssoc
        (completeOperation s opId resultData isSuccess t3).1.active opId = none) ∧
    (name.isEmpty = false → fid.isEmpty = false → stepName.isEmpty = false → t1 ≤ t3 →
      (completeOperation
          (addOperationStep (startOperation ⟨[], [], [], []⟩ fid name meta t1).1
            fid stepName stepData t2).1
          fid resultData true t3).2 = true ∧
      observe (completeOperation
          (addOperationStep (startOperation ⟨[], [], [], []⟩ fid name meta t1).1
            fid stepName stepData t2).1
          fid resultData true t3).1 (.byRef 0) =
        some { operationId := fid, operationName := name, status := .completed,
               startTime := t1, endTime := some t3,
               duration := some ((t3 : Int) - (t1 : Int)),
               steps := [⟨stepName, stepData, t2⟩], resultData := some resultData,
               cancelReason := none, timestamp := t3 } ∧
      0 ≤ (t3 : Int) - (t1 : Int)) := by
  refine ⟨?_, ?_, ?_, ?_, ?_⟩
  · intro hname
    simp only [startOperation, hname, Bool.false_eq_true, if_false]
    refine ⟨by simp, Sampling.lookupAssoc_setAssoc _ _ _, ?_⟩
    simp [observe, materialize, nth_append_self]
  · intro hid hstep hlook hnth href
    have haddr : addr < s.objHeap.length := nth_lt_length _ _ _ hnth
    simp only [addOperationStep, hid, hstep, Bool.or_self, Bool.false_eq_true, if_false,
      hlook, hnth]
    exact ⟨by simp, by simp [nth_setNth_self _ _ _ haddr],
      by simp [nth_setNth_self _ _ _ href]⟩
  · intro hlook
    unfold completeOperation
    by_cases hid : opId.isEmpty
    · simp [hid]
    · simp [hid, hlook]
  · intro hid hlook hnth hnd
    have haddr : addr < s.objHeap.length := nth_lt_length _ _ _ hnth
    simp only [completeOperation, hid, Bool.false_eq_true, if_false, hlook, hnth]
    refine ⟨by simp, by simp, ?_, lookupAssoc_removeAssoc_self _ _ hnd⟩
    simp [observe, materialize, nth_setNth_self _ _ _ haddr]
  · intro hname hfid hstep hmono
    have e1 : (startOperation (⟨[], [], [], []⟩ : TrackerState) fid name meta t1).1 =
        ⟨[⟨fid, name, .started, t1, none, none, meta, 0, none, none, t1⟩], [[]],
          [(fid, 0)], [.byRef 0]⟩ := by
      simp [startOperation, hname, Sampling.setAssoc]
    rw [e1]
    have e2 : addOperationStep
        (⟨[⟨fid, name, .started, t1, none, none, meta, 0, none, none, t1⟩], [[]],
          [(fid, 0)], [.byRef 0]⟩ : TrackerState) fid stepName stepData t2 =
        (⟨[⟨fid, name, .inProgress, t1, none, none, meta, 0, none, none, t2⟩],
          [[⟨stepName, stepData, t2⟩]], [(fid, 0)],
          [.byRef 0, .snap ⟨fid, name, .inProgress, t1, none, none, meta, 0, none, none, t2⟩]⟩,
          true) := by
      simp [addOperationStep, hfid, hstep, Sampling.lookupAssoc, nth, setNth]
    rw [e2]
    have e3 : completeOperation
        (⟨[⟨fid, name, .inProgress, t1, none, none, meta, 0, none, none, t2⟩],
          [[⟨stepName, stepData, t2⟩]], [(fid, 0)],
          [.byRef 0, .snap ⟨fid, name, .inProgress, t1, none, none, meta, 0, none, none, t2⟩]⟩ :
            TrackerState) fid resultData true t3 =
        (⟨[⟨fid, name, .completed, t1, some t3, some ((t3 : Int) - (t1 : Int)), meta, 0,
            some resultData, none, t3⟩],
          [[⟨stepName, stepData, t2⟩]], [],
          [.byRef 0, .snap ⟨fid, name, .inProgress, t1, none, none, meta, 0, none, none, t2⟩,
            .byRef 0]⟩, true) := by
      simp [completeOperation, hfid, Sampling.lookupAssoc, nth, setNth, removeAssoc]
    rw [e3]
    refine ⟨by simp, by simp [observe, materialize, nth], by omega⟩

/-- C5 (witness): the lifecycle theorem instantiated on a concrete
start → addStep → complete run. -/
theorem C5_operation_lifecycle_witness :
    observe (completeOperation
        (addOperationStep (startOperation ⟨[], [], [], []⟩ "i1".data "load".data .vNull 10).1
          "i1".data "fetch".data .vNull 11).1
        "i1".data .vNull true 12).1 (.byRef 0) =
      some { operationId := "i1".data, operationName := "load".data, status := .completed,
             startTime := 10, endTime := some 12, duration := some ((12 : Int) - (10 : Int)),
             steps := [⟨"fetch".data, .vNull, 11⟩], resultData := some .vNull,
             cancelReason := none, timestamp := 12 } :=
  ((C5_operation_lifecycle ⟨[], [], [], []⟩ "i1".data "load".data "fetch".data "i1".data
    .vNull .vNull .vNull true 0
    ⟨"i1".data, "load".data, .started, 10, none, none, .vNull, 0, none, none, 10⟩
    10 11 12).2.2.2.2 rfl rfl rfl (by omega)).2.1

end Tracker

namespace Tracker

/-- State invariant of the tracker, established by every run from the
initial state: active entries point at in-bounds, non-terminal objects;
`stepsRef`s are in bounds and distinct across distinct objects; the
active map has no duplicate addresses and no duplicate ids. -/
def Inv (s : TrackerState) : Prop :=
  (∀ p ∈ s.active, ∃ opp, nth s.objHeap p.2 = some opp ∧ isTerminal opp.status = false) ∧
  (∀ i opi, nth s.objHeap i = some opi → opi.stepsRef < s.stepsHeap.length) ∧
  (∀ i j opi opj, nth s.objHeap i = some opi → nth s.objHeap j = some opj → i ≠ j →
    opi.stepsRef ≠ opj.stepsRef) ∧
  (s.active.map Prod.snd).Nodup ∧
  (s.active.map Prod.fst).Nodup

theorem mem_setAssoc {α : Type} (l : List (List Char × α)) (k : List Char) (v : α)
    (p : List Char × α) (h : p ∈ Sampling.setAssoc l k v) : p = (k, v) ∨ p ∈ l := by
  induction l with
  | nil => simpa [Sampling.setAssoc] using h
  | cons q t ih =>
      obtain ⟨k', v'⟩ := q
      by_cases hk : k' = k
      · simp only [Sampling.setAssoc, if_pos hk, List.mem_cons] at h
        rcases h with h | h
        · exact Or.inl h
        · exact Or.inr (List.mem_cons_of_mem _ h)
      · simp only [Sampling.setAssoc, if_neg hk, List.mem_cons] at h
        rcases h with h | h
        · exact Or.inr (by simp [h])
        · rcases ih h with h' | h'
          · exact Or.inl h'
          · exact Or.inr (List.mem_cons_of_mem _ h')

theorem lookupAssoc_mem {α : Type} (l : List (List Char × α)) (k : List Char) (v : α)
    (h : Sampling.lookupAssoc l k = some v) : (k, v) ∈ l := by
  induction l with
  | nil => simp [Sampling.lookupAssoc] at h
  | cons q t ih =>
      obtain ⟨k', v'⟩ := q
      by_cases hk : k' = k
      · subst hk
        simp only [Sampling.lookupAssoc, if_true] at h
        simp at h
        simp [h]
      · simp only [Sampling.lookupAssoc, if_neg hk] at h
        exact List.mem_cons_of_mem _ (ih h)

theorem nodup_snd_setAssoc {α : Type} (l : List (List Char × α)) (k : List Char) (v : α)
    (hnd : (l.map Prod.snd).Nodup) (hfresh : ∀ p ∈ l, p.2 ≠ v) :
    ((Sampling.setAssoc l k v).map Prod.snd).Nodup := by
  induction l with
  | nil => simp [Sampling.setAssoc]
  | cons q t ih =>
      obtain ⟨k', v'⟩ := q
      simp only [List.map_cons, List.nodup_cons] at hnd
      by_cases hk : k' = k
      · simp only [Sampling.setAssoc, if_pos hk, List.map_cons, List.nodup_cons]
        refine ⟨?_, hnd.2⟩
        intro hv
        obtain ⟨p, hp, hpv⟩ := List.mem_map.mp hv
        exact hfresh p (List.mem_cons_of_mem _ hp) hpv
      · simp only [Sampling.setAssoc, if_neg hk, List.map_cons, List.nodup_cons]
        refine ⟨?_, ih hnd.2 (fun p hp => hfresh p (List.mem_cons_of_mem _ hp))⟩
        intro hv
        obtain ⟨p, hp, hpv⟩ := List.mem_map.mp hv
        rcases mem_setAssoc t k v p hp with rfl | hp'
        · exact hfresh (k', v') (by simp) hpv.symm
        · exact hnd.1 (List.mem_map.mpr ⟨p, hp', hpv⟩)

theorem nodup_fst_setAssoc {α : Type} (l : List (List Char × α)) (k : List Char) (v : α)
    (hnd : (l.map Prod.fst).Nodup) :
    ((Sampling.setAssoc l k v).map Prod.fst).Nodup := by
  induction l with
  | nil => simp [Sampling.setAssoc]
  | cons q t ih =>
      obtain ⟨k', v'⟩ := q
      simp only [List.map_cons, List.nodup_cons] at hnd
      by_cases hk : k' = k
      · simp only [Sampling.setAssoc]
        rw [if_pos hk]
        subst hk
        simp only [List.map_cons, List.nodup_cons]
        exact ⟨hnd.1, hnd.2⟩
      · simp only [Sampling.setAssoc, if_neg hk, List.map_cons, List.nodup_cons]
        refine ⟨?_, ih hnd.2⟩
        intro hv
        obtain ⟨p, hp, hpv⟩ := List.mem_map.mp hv
        rcases mem_setAssoc t k v p hp with rfl | hp'
        · exact hk hpv.symm
        · exact hnd.1 (List.mem_map.mpr ⟨p, hp', hpv⟩)

theorem removeAssoc_sublist {α : Type} (l : List (List Char × α)) (k : List Char) :
    List.Sublist (removeAssoc l k) l := by
  induction l with
  | nil => simp [removeAssoc]
  | cons q t ih =>
      obtain ⟨k', v'⟩ := q
      by_cases hk : k' = k
      · simpa [removeAssoc, hk] using List.sublist_cons_self (k', v') t
      · simpa [removeAssoc, hk] using ih.cons₂ (k', v')

theorem mem_removeAssoc {α : Type} (l : List (List Char × α)) (k : List Char)
    (p : List Char × α) (h : p ∈ removeAssoc l k) : p ∈ l :=
  (removeAssoc_sublist l k).mem h

theorem fst_ne_of_mem_removeAssoc {α : Type} (l : List (List Char × α)) (k : List Char)
    (hnd : (l.map Prod.fst).Nodup) (p : List Char × α) (h : p ∈ removeAssoc l k) :
    p.1 ≠ k := by
  induction l with
  | nil => simp [removeAssoc] at h
  | cons q t ih =>
      obtain ⟨k', v'⟩ := q
      simp only [List.map_cons, List.nodup_cons] at hnd
      by_cases hk : k' = k
      · subst hk
        simp only [removeAssoc, if_pos rfl] at h
        intro hc
        exact hnd.1 (List.mem_map.mpr ⟨p, h, hc⟩)
      · simp only [removeAssoc, if_neg hk, List.mem_cons] at h
        rcases h with rfl | h
        · exact hk
        · exact ih hnd.2 h

end Tracker

namespace Tracker

open Redaction

theorem nth_append_singleton_cases {α : Type} (l : List α) (x y : α) (i : Nat)
    (h : nth (l ++ [x]) i = some y) : nth l i = some y ∨ (i = l.length ∧ y = x) := by
  induction l generalizing i with
  | nil =>
      cases i with
      | zero =>
          simp only [List.nil_append, nth, Option.some.injEq] at h
          exact Or.inr ⟨rfl, h.symm⟩
      | succ n => cases n <;> simp [nth] at h
  | cons z t ih =>
      cases i with
      | zero =>
          simp only [List.cons_append, nth] at h
          exact Or.inl h
      | succ n =>
          rcases ih n (by simpa [nth] using h) with h' | h'
          · exact Or.inl (by simpa [nth] using h')
          · exact Or.inr ⟨by simp [h'.1], h'.2⟩

theorem nth_some_unique {α : Type} (l : List α) (i : Nat) (x y : α)
    (hx : nth l i = some x) (hy : nth l i = some y) : x = y := by
  rw [hx] at hy
  exact (Option.some.injEq _ _).mp hy

theorem start_frame (s : TrackerState) (hInv : Inv s) (fid name : List Char)
    (meta : JsValue) (now : Nat) :
    Inv (startOperation s fid name meta now).1 ∧
    ∀ a op, nth s.objHeap a = some op →
      nth (startOperation s fid name meta now).1.objHeap a = some op ∧
      nth (startOperation s fid name meta now).1.stepsHeap op.stepsRef =
        nth s.stepsHeap op.stepsRef := by
  obtain ⟨hI1, hI2, hI3, hI4, hI5⟩ := hInv
  by_cases hname : name.isEmpty = true
  · simp only [startOperation, hname, if_true]
    exact ⟨⟨hI1, hI2, hI3, hI4, hI5⟩, fun a op ha => ⟨ha, by simp⟩⟩
  · simp only [startOperation, hname, Bool.false_eq_true, if_false]
    refine ⟨⟨?_, ?_, ?_, ?_, ?_⟩, ?_⟩
    · intro p hp
      rcases mem_setAssoc _ _ _ p hp with rfl | hp'
      · exact ⟨_, nth_append_self s.objHeap _, rfl⟩
      · obtain ⟨opp, hopp, hterm⟩ := hI1 p hp'
        exact ⟨opp, by
          rw [nth_append_left _ _ _ (nth_lt_length _ _ _ hopp)]
          exact hopp, hterm⟩
    · intro i opi hi
      simp only [List.length_append, List.length_singleton]
      rcases nth_append_singleton_cases _ _ _ _ hi with h' | ⟨_, rfl⟩
      · have := hI2 i opi h'
        omega
      · simp
    · intro i j opi opj hi hj hij
      rcases nth_append_singleton_cases _ _ _ _ hi with hi' | ⟨hieq, rfl⟩ <;>
        rcases nth_append_singleton_cases _ _ _ _ hj with hj' | ⟨hjeq, rfl⟩
      · exact hI3 i j opi opj hi' hj' hij
      · have := hI2 i opi hi'
        simp only []
        omega
      · have := hI2 j opj hj'
        simp only []
        omega
      · exact absurd (hieq.trans hjeq.symm) hij
    · refine nodup_snd_setAssoc _ _ _ hI4 ?_
      intro p hp
      obtain ⟨opp, hopp, _⟩ := hI1 p hp
      have := nth_lt_length _ _ _ hopp
      omega
    · exact nodup_fst_setAssoc _ _ _ hI5
    · intro a op ha
      constructor
      · rw [nth_append_left _ _ _ (nth_lt_length _ _ _ ha)]
        exact ha
      · rw [nth_append_left _ _ _ (hI2 a op ha)]

theorem addStep_frame (s : TrackerState) (hInv : Inv s) (id sn : List Char)
    (sd : JsValue) (now : Nat) :
    Inv (addOperationStep s id sn sd now).1 ∧
    ∀ a op, nth s.objHeap a = some op → isTerminal op.status = true →
      nth (addOperationStep s id sn sd now).1.objHeap a = some op ∧
      nth (addOperationStep s id sn sd now).1.stepsHeap op.stepsRef =
        nth s.stepsHeap op.stepsRef := by
  obtain ⟨hI1, hI2, hI3, hI4, hI5⟩ := hInv
  by_cases hg : (id.isEmpty || sn.isEmpty) = true
  · have heq : addOperationStep s id sn sd now = (s, false) := by
      simp only [addOperationStep, hg, if_true]
    rw [heq]
    exact ⟨⟨hI1, hI2, hI3, hI4, hI5⟩, fun a op ha _ => ⟨ha, rfl⟩⟩
  · cases hlook : Sampling.lookupAssoc s.active id with
    | none =>
        have heq : addOperationStep s id sn sd now = (s, false) := by
          simp only [addOperationStep, hg, Bool.false_eq_true, if_false, hlook]
        rw [heq]
        exact ⟨⟨hI1, hI2, hI3, hI4, hI5⟩, fun a op ha _ => ⟨ha, rfl⟩⟩
    | some addr =>
        cases hnth : nth s.objHeap addr with
        | none =>
            have heq : addOperationStep s id sn sd now = (s, false) := by
              simp only [addOperationStep, hg, Bool.false_eq_true, if_false, hlook, hnth]
            rw [heq]
            exact ⟨⟨hI1, hI2, hI3, hI4, hI5⟩, fun a op ha _ => ⟨ha, rfl⟩⟩
        | some op0 =>
            have heq : addOperationStep s id sn sd now =
                ({ s with
                    objHeap := setNth s.objHeap addr
                      { op0 with status := .inProgress, timestamp := now },
                    stepsHeap := setNth s.stepsHeap op0.stepsRef
                      ((nth s.stepsHeap op0.stepsRef).getD [] ++ [⟨sn, sd, now⟩]),
                    emitted := s.emitted ++
                      [.snap { op0 with status := .inProgress, timestamp := now }] }, true) := by
              simp only [addOperationStep, hg, Bool.false_eq_true, if_false, hlook, hnth]
            rw [heq]
            have haddr : addr < s.objHeap.length := nth_lt_length _ _ _ hnth
            have href : op0.stepsRef < s.stepsHeap.length := hI2 addr op0 hnth
            have hmem0 : (id, addr) ∈ s.active := lookupAssoc_mem _ _ _ hlook
            obtain ⟨opp, hopp, hnterm⟩ := hI1 (id, addr) hmem0
            have hnterm0 : isTerminal op0.status = false :=
              nth_some_unique _ _ _ _ hopp hnth ▸ hnterm
            refine ⟨⟨?_, ?_, ?_, hI4, hI5⟩, ?_⟩
            · intro p hp
              by_cases hpa : p.2 = addr
              · rw [hpa]
                exact ⟨_, nth_setNth_self _ _ _ haddr, rfl⟩
              · obtain ⟨opp2, hopp2, ht2⟩ := hI1 p hp
                exact ⟨opp2, by
                  rw [nth_setNth_ne _ _ _ _ (fun hc => hpa hc.symm)]
                  exact hopp2, ht2⟩
            · intro i opi hi
              rw [length_setNth]
              by_cases hia : i = addr
              · rw [hia] at hi
                rw [nth_setNth_self _ _ _ haddr] at hi
                cases hi
                exact href
              · rw [nth_setNth_ne _ _ _ _ (fun hc => hia hc.symm)] at hi
                exact hI2 i opi hi
            · intro i j opi opj hi hj hij
              by_cases hia : i = addr <;> by_cases hja : j = addr
              · exact absurd (hia.trans hja.symm) hij
              · rw [hia] at hi hij
                rw [nth_setNth_self _ _ _ haddr] at hi
                cases hi
                rw [nth_setNth_ne _ _ _ _ (fun hc => hja hc.symm)] at hj
                exact hI3 addr j op0 opj hnth hj hij
              · rw [hja] at hj hij
                rw [nth_setNth_self _ _ _ haddr] at hj
                cases hj
                rw [nth_setNth_ne _ _ _ _ (fun hc => hia hc.symm)] at hi
                exact hI3 i addr opi op0 hi hnth hij
              · rw [nth_setNth_ne _ _ _ _ (fun hc => hia hc.symm)] at hi
                rw [nth_setNth_ne _ _ _ _ (fun hc => hja hc.symm)] at hj
                exact hI3 i j opi opj hi hj hij
            · intro a op ha hterm
              have hne : a ≠ addr := by
                intro hc
                rw [hc] at ha
                have he : op = op0 := nth_some_unique _ _ _ _ ha hnth
                rw [he] at hterm
                rw [hterm] at hnterm0
                cases hnterm0
              constructor
              · rw [nth_setNth_ne _ _ _ _ (fun hc => hne hc.symm)]
                exact ha
              · have hrne : op.stepsRef ≠ op0.stepsRef := hI3 a addr op op0 ha hnth hne
                rw [nth_setNth_ne _ _ _ _ (fun hc => hrne hc.symm)]

end Tracker

namespace Tracker

open Redaction

theorem terminalize_frame (s : TrackerState) (hInv : Inv s) (id : List Char) (addr : Nat)
    (op0 op' : OperationEvent) (em' : List Emission)
    (hlook : Sampling.lookupAssoc s.active id = some addr)
    (hnth : nth s.objHeap addr = some op0)
    (href : op'.stepsRef = op0.stepsRef) :
    Inv { objHeap := setNth s.objHeap addr op', stepsHeap := s.stepsHeap,
          active := removeAssoc s.active id, emitted := em' } ∧
    ∀ a op, nth s.objHeap a = some op → isTerminal op.status = true →
      nth (setNth s.objHeap addr op') a = some op := by
  obtain ⟨hI1, hI2, hI3, hI4, hI5⟩ := hInv
  have haddr : addr < s.objHeap.length := nth_lt_length _ _ _ hnth
  have hmem0 : (id, addr) ∈ s.active := lookupAssoc_mem _ _ _ hlook
  obtain ⟨opp, hopp, hnterm⟩ := hI1 (id, addr) hmem0
  have hnterm0 : isTerminal op0.status = false :=
    nth_some_unique _ _ _ _ hopp hnth ▸ hnterm
  constructor
  · refine ⟨?_, ?_, ?_, ?_, ?_⟩
    · intro p hp
      have hpmem : p ∈ s.active := mem_removeAssoc _ _ _ hp
      have hpid : p.1 ≠ id := fst_ne_of_mem_removeAssoc _ _ hI5 _ hp
      have hpa : p.2 ≠ addr := by
        intro hc
        have : p = (id, addr) :=
          List.inj_on_of_nodup_map hI4 hpmem hmem0 (by simpa using hc)
        exact hpid (by simp [this])
      obtain ⟨opp2, hopp2, ht2⟩ := hI1 p hpmem
      exact ⟨opp2, by
        rw [nth_setNth_ne _ _ _ _ (fun hc => hpa hc.symm)]
        exact hopp2, ht2⟩
    · intro i opi hi
      by_cases hia : i = addr
      · rw [hia] at hi
        rw [nth_setNth_self _ _ _ haddr] at hi
        cases hi
        rw [href]
        exact hI2 addr op0 hnth
      · rw [nth_setNth_ne _ _ _ _ (fun hc => hia hc.symm)] at hi
        exact hI2 i opi hi
    · intro i j opi opj hi hj hij
      by_cases hia : i = addr <;> by_cases hja : j = addr
      · exact absurd (hia.trans hja.symm) hij
      · rw [hia] at hi hij
        rw [nth_setNth_self _ _ _ haddr] at hi
        cases hi
        rw [nth_setNth_ne _ _ _ _ (fun hc => hja hc.symm)] at hj
        rw [href]
        exact hI3 addr j op0 opj hnth hj hij
      · rw [hja] at hj hij
        rw [nth_setNth_self _ _ _ haddr] at hj
        cases hj
        rw [nth_setNth_ne _ _ _ _ (fun hc => hia hc.symm)] at hi
        rw [href]
        exact hI3 i addr opi op0 hi hnth hij
      · rw [nth_setNth_ne _ _ _ _ (fun hc => hia hc.symm)] at hi
        rw [nth_setNth_ne _ _ _ _ (fun hc => hja hc.symm)] at hj
        exact hI3 i j opi opj hi hj hij
    · exact hI4.sublist ((removeAssoc_sublist s.active id).map Prod.snd)
    · exact hI5.sublist ((removeAssoc_sublist s.active id).map Prod.fst)
  · intro a op ha hterm
    have hne : a ≠ addr := by
      intro hc
      rw [hc] at ha
      have he : op = op0 := nth_some_unique _ _ _ _ ha hnth
      rw [he] at hterm
      rw [hterm] at hnterm0
      cases hnterm0
    rw [nth_setNth_ne _ _ _ _ (fun hc => hne hc.symm)]
    exact ha

theorem complete_frame (s : TrackerState) (hInv : Inv s) (id : List Char)
    (rd : JsValue) (ok : Bool) (now : Nat) :
    Inv (completeOperation s id rd ok now).1 ∧
    ∀ a op, nth s.objHeap a = some op → isTerminal op.status = true →
      nth (completeOperation s id rd ok now).1.objHeap a = some op ∧
      nth (completeOperation s id rd ok now).1.stepsHeap op.stepsRef =
        nth s.stepsHeap op.stepsRef := by
  by_cases hg : id.isEmpty = true
  · have heq : completeOperation s id rd ok now = (s, false) := by
      simp only [completeOperation, hg, if_true]
    rw [heq]
    exact ⟨hInv, fun a op ha _ => ⟨ha, rfl⟩⟩
  · cases hlook : Sampling.lookupAssoc s.active id with
    | none =>
        have heq : completeOperation s id rd ok now = (s, false) := by
          simp only [completeOperation, hg, Bool.false_eq_true, if_false, hlook]
        rw [heq]
        exact ⟨hInv, fun a op ha _ => ⟨ha, rfl⟩⟩
    | some addr =>
        cases hnth : nth s.objHeap addr with
        | none =>
            have heq : completeOperation s id rd ok now = (s, false) := by
              simp only [completeOperation, hg, Bool.false_eq_true, if_false, hlook, hnth]
            rw [heq]
            exact ⟨hInv, fun a op ha _ => ⟨ha, rfl⟩⟩
        | some op0 =>
            have heq : completeOperation s id rd ok now =
                ({ objHeap := setNth s.objHeap addr
                    { op0 with
                        status := if ok then .completed else .failed,
                        endTime := some now,
                        duration := some ((now : Int) - (op0.startTime : Int)),
                        resultData := some rd,
                        timestamp := now },
                   stepsHeap := s.stepsHeap,
                   active := removeAssoc s.active id,
                   emitted := s.emitted ++ [.byRef addr] }, true) := by
              simp only [completeOperation, hg, Bool.false_eq_true, if_false, hlook, hnth]
            rw [heq]
            have := terminalize_frame s hInv id addr op0
              { op0 with
                  status := if ok then .completed else .failed,
                  endTime := some now,
                  duration := some ((now : Int) - (op0.startTime : Int)),
                  resultData := some rd,
                  timestamp := now }
              (s.emitted ++ [.byRef addr]) hlook hnth rfl
            exact ⟨this.1, fun a op ha ht => ⟨this.2 a op ha ht, rfl⟩⟩

theorem cancel_frame (s : TrackerState) (hInv : Inv s) (id reason : List Char) (now : Nat) :
    Inv (cancelOperation s id reason now).1 ∧
    ∀ a op, nth s.objHeap a = some op → isTerminal op.status = true →
      nth (cancelOperation s id reason now).1.objHeap a = some op ∧
      nth (cancelOperation s id reason now).1.stepsHeap op.stepsRef =
        nth s.stepsHeap op.stepsRef := by
  by_cases hg : id.isEmpty = true
  · have heq : cancelOperation s id reason now = (s, false) := by
      simp only [cancelOperation, hg, if_true]
    rw [heq]
    exact ⟨hInv, fun a op ha _ => ⟨ha, rfl⟩⟩
  · cases hlook : Sampling.lookupAssoc s.active id with
    | none =>
        have heq : cancelOperation s id reason now = (s, false) := by
          simp only [cancelOperation, hg, Bool.false_eq_true, if_false, hlook]
        rw [heq]
        exact ⟨hInv, fun a op ha _ => ⟨ha, rfl⟩⟩
    | some addr =>
        cases hnth : nth s.objHeap addr with
        | none =>
            have heq : cancelOperation s id reason now = (s, false) := by
              simp only [cancelOperation, hg, Bool.false_eq_true, if_false, hlook, hnth]
            rw [heq]
            exact ⟨hInv, fun a op ha _ => ⟨ha, rfl⟩⟩
        | some op0 =>
            have heq : cancelOperation s id reason now =
                ({ objHeap := setNth s.objHeap addr
                    { op0 with
                        status := .cancelled,
                        endTime := some now,
                        duration := some ((now : Int) - (op0.startTime : Int)),
                        cancelReason := some reason,
                        timestamp := now },
                   stepsHeap := s.stepsHeap,
                   active := removeAssoc s.active id,
                   emitted := s.emitted ++ [.byRef addr] }, true) := by
              simp only [cancelOperation, hg, Bool.false_eq_true, if_false, hlook, hnth]
            rw [heq]
            have := terminalize_frame s hInv id addr op0
              { op0 with
                  status := .cancelled,
                  endTime := some now,
                  duration := some ((now : Int) - (op0.startTime : Int)),
                  cancelReason := some reason,
                  timestamp := now }
              (s.emitted ++ [.byRef addr]) hlook hnth rfl
            exact ⟨this.1, fun a op ha ht => ⟨this.2 a op ha ht, rfl⟩⟩

end Tracker

namespace Tracker

open Redaction

theorem unloadFold_stepsHeap (now : Nat) :
    ∀ (l : List (List Char × Nat)) (acc : TrackerState),
      (List.foldl (unloadStep now) acc l).stepsHeap = acc.stepsHeap := by
  intro l
  induction l with
  | nil => intro acc; rfl
  | cons p t ih =>
      intro acc
      rw [List.foldl_cons, ih]
      unfold unloadStep
      cases nth acc.objHeap p.2 <;> rfl

theorem unloadFold_frame (now a : Nat) :
    ∀ (l : List (List Char × Nat)) (acc : TrackerState), (∀ p ∈ l, p.2 ≠ a) →
      nth (List.foldl (unloadStep now) acc l).objHeap a = nth acc.objHeap a := by
  intro l
  induction l with
  | nil => intro acc _; rfl
  | cons p t ih =>
      intro acc hne
      rw [List.foldl_cons, ih _ (fun q hq => hne q (List.mem_cons_of_mem _ hq))]
      unfold unloadStep
      cases nth acc.objHeap p.2 with
      | none => rfl
      | some op =>
          exact nth_setNth_ne _ _ _ _ (hne p (by simp))

theorem unloadFold_refmap (now : Nat) :
    ∀ (l : List (List Char × Nat)) (acc : TrackerState) (i : Nat),
      (nth (List.foldl (unloadStep now) acc l).objHeap i).map (fun o => o.stepsRef) =
        (nth acc.objHeap i).map (fun o => o.stepsRef) := by
  intro l
  induction l with
  | nil => intro acc i; rfl
  | cons p t ih =>
      intro acc i
      rw [List.foldl_cons, ih]
      unfold unloadStep
      cases hn : nth acc.objHeap p.2 with
      | none => rfl
      | some op =>
          by_cases hip : i = p.2
          · rw [hip]
            rw [nth_setNth_self _ _ _ (nth_lt_length _ _ _ hn), hn]
            rfl
          · rw [nth_setNth_ne _ _ _ _ (fun hc => hip hc.symm)]

theorem unload_frame (s : TrackerState) (hInv : Inv s) (now : Nat) :
    Inv (handlePageUnload s now) ∧
    ∀ a op, nth s.objHeap a = some op → isTerminal op.status = true →
      nth (handlePageUnload s now).objHeap a = some op ∧
      nth (handlePageUnload s now).stepsHeap op.stepsRef = nth s.stepsHeap op.stepsRef := by
  obtain ⟨hI1, hI2, hI3, hI4, hI5⟩ := hInv
  have hsteps : (handlePageUnload s now).stepsHeap = s.stepsHeap := by
    unfold handlePageUnload
    exact unloadFold_stepsHeap now s.active s
  have hrefmap : ∀ i, (nth (handlePageUnload s now).objHeap i).map (fun o => o.stepsRef) =
      (nth s.objHeap i).map (fun o => o.stepsRef) := by
    intro i
    unfold handlePageUnload
    exact unloadFold_refmap now s.active s i
  constructor
  · refine ⟨?_, ?_, ?_, ?_, ?_⟩
    · intro p hp
      simp [handlePageUnload] at hp
    · intro i opi hi
      have hm := hrefmap i
      rw [hi] at hm
      cases ho : nth s.objHeap i with
      | none => rw [ho] at hm; simp at hm
      | some opo =>
          rw [ho] at hm
          simp only [Option.map_some', Option.some.injEq] at hm
          rw [hsteps, hm]
          exact hI2 i opo ho
    · intro i j opi opj hi hj hij
      have hmi := hrefmap i
      have hmj := hrefmap j
      rw [hi] at hmi
      rw [hj] at hmj
      cases hoi : nth s.objHeap i with
      | none => rw [hoi] at hmi; simp at hmi
      | some opi0 =>
          cases hoj : nth s.objHeap j with
          | none => rw [hoj] at hmj; simp at hmj
          | some opj0 =>
              rw [hoi] at hmi
              rw [hoj] at hmj
              simp only [Option.map_some', Option.some.injEq] at hmi hmj
              rw [hmi, hmj]
              exact hI3 i j opi0 opj0 hoi hoj hij
    · simp [handlePageUnload]
    · simp [handlePageUnload]
  · intro a op ha hterm
    have hne : ∀ p ∈ s.active, p.2 ≠ a := by
      intro p hp hc
      obtain ⟨opp, hopp, hnt⟩ := hI1 p hp
      rw [hc] at hopp
      have : opp = op := nth_some_unique _ _ _ _ hopp ha
      rw [this, hterm] at hnt
      cases hnt
    constructor
    · unfold handlePageUnload
      rw [unloadFold_frame now a s.active s hne]
      exact ha
    · rw [hsteps]

theorem stepCmd_frame (s : TrackerState) (hInv : Inv s) (c : Cmd) :
    Inv (stepCmd s c) ∧
    ∀ a op, nth s.objHeap a = some op → isTerminal op.status = true →
      nth (stepCmd s c).objHeap a = some op ∧
      nth (stepCmd s c).stepsHeap op.stepsRef = nth s.stepsHeap op.stepsRef := by
  cases c with
  | start fid name md now =>
      have h := start_frame s hInv fid name md now
      exact ⟨h.1, fun a op ha _ => h.2 a op ha⟩
  | addStep id sn sd now => exact addStep_frame s hInv id sn sd now
  | complete id rd ok now => exact complete_frame s hInv id rd ok now
  | cancel id r now => exact cancel_frame s hInv id r now
  | unload now => exact unload_frame s hInv now

theorem runCmds_frame (cmds : List Cmd) :
    ∀ (s : TrackerState), Inv s →
      ∀ a op, nth s.objHeap a = some op → isTerminal op.status = true →
        nth (runCmds s cmds).objHeap a = some op ∧
        nth (runCmds s cmds).stepsHeap op.stepsRef = nth s.stepsHeap op.stepsRef := by
  induction cmds with
  | nil => intro s _ a op ha _; exact ⟨ha, rfl⟩
  | cons c cs ih =>
      intro s hInv a op ha hterm
      have h := stepCmd_frame s hInv c
      have h2 := h.2 a op ha hterm
      have h3 := ih (stepCmd s c) h.1 a op h2.1 hterm
      exact ⟨h3.1, h3.2.trans h2.2⟩

end Tracker

namespace Tracker

open Redaction

/-- Tracker state after `startOperation` (C7 counterexample). -/
def cexS1 : TrackerState :=
  (startOperation ⟨[], [], [], []⟩ "id1".data "op".data .vNull 0).1

/-- Tracker state after a subsequent `addOperationStep` (C7
counterexample). -/
def cexS2 : TrackerState :=
  (addOperationStep cexS1 "id1".data "step".data .vNull 5).1

/-- C7 (counterexample): the STARTED event handed to the reporter by
`startOperation` is the very object stored in the active map; a later
`addOperationStep` on the same operation mutates it in place, so the
event observed through the emission changes from status STARTED with no
steps to status IN_PROGRESS with one step. -/
theorem C7_immutability_counterexample :
    cexS1.emitted = [.byRef 0] ∧
    (observe cexS1 (.byRef 0)).map (fun e => (e.status, e.steps.length)) =
      some (.started, 0) ∧
    (observe cexS2 (.byRef 0)).map (fun e => (e.status, e.steps.length)) =
      some (.inProgress, 1) ∧
    observe cexS2 (.byRef 0) ≠ observe cexS1 (.byRef 0) := by
  refine ⟨rfl, rfl, rfl, ?_⟩
  intro h
  exact absurd (congrArg (Option.map (fun e => ObsEvent.status e)) h) (by decide)

/-- C7 (amended): an event emitted with a *terminal* status (the final
emissions of `completeOperation` / `cancelOperation` / the page-unload
sweep) is never modified by any later tracker operation: under the state
invariant, its observation is unchanged by any subsequent command
sequence. (Non-terminal emissions — the STARTED object and IN_PROGRESS
snapshots — share state with the active operation and are mutated in
place, as the counterexample shows.) -/
theorem C7_terminal_emission_immutable (s : TrackerState) (hInv : Inv s) (a : Nat)
    (op : OperationEvent) (ha : nth s.objHeap a = some op)
    (hterm : isTerminal op.status = true) (cmds : List Cmd) :
    observe (runCmds s cmds) (.byRef a) = observe s (.byRef a) := by
  have h := runCmds_frame cmds s hInv a op ha hterm
  simp only [observe, h.1, ha, Option.map_some']
  unfold materialize
  rw [h.2]

/-- A completed operation object (C7 witness). -/
def cexDone : OperationEvent :=
  ⟨"d".data, "op".data, .completed, 0, some 1, some 1, .vNull, 0, none, none, 1⟩

/-- A state holding one terminal, already-emitted operation (C7
witness). -/
def cexTermState : TrackerState := ⟨[cexDone], [[]], [], [.byRef 0]⟩

/-- C7 (witness): the terminal emission survives a later start, step and
page unload unchanged. -/
theorem C7_terminal_emission_immutable_witness :
    observe (runCmds cexTermState
        [.start "x".data "go".data .vNull 2, .addStep "x".data "s".data .vNull 3,
          .unload 4]) (.byRef 0) =
      observe cexTermState (.byRef 0) :=
  C7_terminal_emission_immutable cexTermState
    (by
      refine ⟨?_, ?_, ?_, ?_, ?_⟩
      · intro p hp
        simp [cexTermState] at hp
      · intro i opi hi
        cases i with
        | zero =>
            have he : cexDone = opi := by simpa [cexTermState, nth] using hi
            simp [← he, cexDone, cexTermState]
        | succ n => simp [cexTermState, nth] at hi
      · intro i j opi opj hi hj hij
        cases i with
        | zero =>
            cases j with
            | zero => exact absurd rfl hij
            | succ m => simp [cexTermState, nth] at hj
        | succ n => simp [cexTermState, nth] at hi
      · simp [cexTermState]
      · simp [cexTermState])
    0 cexDone rfl rfl _

end Tracker

namespace Storage

open Redaction

/-- Embedding of `CachedItem` of `storage-service.ts` (the `id` is always present once
stored: IndexedDB assigns it on `add`). -/
structure CachedItem where
  id : Nat
  data : JsValue
  timestamp : Nat
  retryCount : Nat

/-- State of the IndexedDB store backing `StorageService`: the
auto-increment counter and the stored records. -/
structure QueueState where
  nextId : Nat := 1
  items : List CachedItem := []

/-- Embedding of `StorageService.saveData`: append a record with `retryCount = 0`; the
store assigns the next auto-increment id. -/
def saveData (q : QueueState) (d : JsValue) (now : Nat) : QueueState :=
  { nextId := q.nextId + 1, items := q.items ++ [⟨q.nextId, d, now, 0⟩] }

/-- Ordering of the `timestamp` index: by timestamp, ties by primary
key. -/
def itemLE (a b : CachedItem) : Bool :=
  a.timestamp < b.timestamp || (a.timestamp = b.timestamp && a.id ≤ b.id)

/-- Insertion into a sorted list (index order). -/
def insertSorted (x : CachedItem) : List CachedItem → List CachedItem
  | [] => [x]
  | y :: t => if itemLE x y then x :: y :: t else y :: insertSorted x t

/-- The `timestamp` index view of the store. -/
def sortByTs (l : List CachedItem) : List CachedItem := l.foldr insertSorted []

/-- Embedding of `StorageService.getBatchData`: up to `limit` items in timestamp-index
order (read-only). -/
def getBatchData (q : QueueState) (limit : Nat) : List CachedItem :=
  (sortByTs q.items).take limit

/-- Embedding of `StorageService.getCount`. -/
def getCount (q : QueueState) : Nat := q.items.length

/-- Embedding of `StorageService.removeData`: delete each listed id (and nothing
else). -/
def removeData (q : QueueState) (ids : List Nat) : QueueState :=
  { q with items := q.items.filter (fun it => ¬ ids.contains it.id) }

end Storage

namespace Pipeline

open Redaction

/-- Embedding of `ReportStrategy` of `types.ts`. -/
inductive ReportStrategy where
  | immediate
  | batch
  | periodic
deriving DecidableEq

/-- The configuration fields of `EdgeSentinelSDK` that `_report`
consults. -/
structure ReportCfg where
  isErrorState : Bool
  enableSampling : Bool
  enableOfflineCache : Bool
  reportStrategy : ReportStrategy
  batchSize : Nat
  sensitiveFields : Option (List (List Char))
  customHandler : Option Handler
  appId : List Char
  userKey : List Char
  sessionId : List Char

/-- Property access on an event object. -/
def jsField (d : JsValue) (k : List Char) : Option JsValue :=
  match d with
  | .vObj kvs => Sampling.objLookup kvs k
  | _ => none

/-- Embedding of `data.type === 'replay_session'` (strict equality: only a string can
match). -/
def typeIsReplay (d : JsValue) : Bool :=
  match jsField d "type".data with
  | some (.vStr s) => s = "replay_session".data
  | _ => false

/-- Embedding of `data.type` coerced to the string key used by the sampling service. -/
def typeStringOf (d : JsValue) : List Char :=
  match jsField d "type".data with
  | some v => jsToString v
  | none => "undefined".data

/-- Object-spread assignment: later fields overwrite earlier ones. -/
def setField : JsObj → List Char → JsValue → JsObj
  | .nil, k, v => .cons k v .nil
  | .cons k' v' t, k, v =>
      if k' = k then .cons k v t else .cons k' v' (setField t k v)

/-- Own fields of a value when spread into an object literal. -/
def objFields : JsValue → JsObj
  | .vObj kvs => kvs
  | _ => .nil

/-- Envelope construction of `_report`:
`{...processedData, appId, userKey, sessionId, baseInfo}`. -/
def buildEnvelope (cfg : ReportCfg) (baseInfo : JsValue) (p : JsValue) : JsValue :=
  .vObj (setField (setField (setField (setField (objFields p)
    "appId".data (.vStr cfg.appId)) "userKey".data (.vStr cfg.userKey))
    "sessionId".data (.vStr cfg.sessionId)) "baseInfo".data baseInfo)

/-- How `_report` disposed of one event. -/
inductive ReportOutcome where
  | droppedErrorState
  | droppedBySampling
  | cached (flushTriggered : Bool)
  | sentDirect
deriving DecidableEq

/-- Result of `_report`: the disposition, the envelope built (when the
event survived), and the updated sampling / random / queue states. -/
structure ReportResult where
  outcome : ReportOutcome
  envelope : Option JsValue
  samp : Sampling.SamplingState
  rng : Sampling.Rng
  queue : Storage.QueueState

/-- Embedding of `EdgeSentinelSDK._report`: error state drops; the sampling gate is
bypassed for `replay_session` events and otherwise drops the event when
`shouldSampleEvent` returns false; survivors are redacted, enveloped and
then either persisted to the durable queue (offline cache enabled and
strategy batch/periodic, with an immediate flush trigger under batch when
the queue depth reaches `batchSize`) or sent directly. -/
def report (cfg : ReportCfg) (baseInfo : JsValue) (samp : Sampling.SamplingState)
    (rng : Sampling.Rng) (queue : Storage.QueueState) (fuel : Nat) (data : JsValue)
    (now : Nat) : ReportResult :=
  if cfg.isErrorState then ⟨.droppedErrorState, none, samp, rng, queue⟩
  else
    let g :=
      if cfg.enableSampling && ! typeIsReplay data then
        Sampling.shouldSampleEvent samp rng (typeStringOf data) (some data) now
      else (true, samp, rng)
    if g.1 = false then ⟨.droppedBySampling, none, g.2.1, g.2.2, queue⟩
    else
      let processed := processSensitiveData cfg.sensitiveFields cfg.customHandler fuel data
      let envelope := buildEnvelope cfg baseInfo processed
      if cfg.enableOfflineCache &&
          (cfg.reportStrategy = ReportStrategy.batch ||
            cfg.reportStrategy = ReportStrategy.periodic) then
        let q2 := Storage.saveData queue envelope now
        if cfg.reportStrategy = ReportStrategy.batch && cfg.batchSize ≤ Storage.getCount q2 then
          ⟨.cached true, some envelope, g.2.1, g.2.2, q2⟩
        else
          ⟨.cached false, some envelope, g.2.1, g.2.2, q2⟩
      else ⟨.sentDirect, some envelope, g.2.1, g.2.2, queue⟩

end Pipeline

namespace Storage

open Redaction

theorem mem_insertSorted (x a : CachedItem) (l : List CachedItem) :
    a ∈ insertSorted x l ↔ a = x ∨ a ∈ l := by
  induction l with
  | nil => simp [insertSorted]
  | cons y t ih =>
      unfold insertSorted
      split
      · simp
      · simp [ih]
        tauto

theorem mem_sortByTs (a : CachedItem) (l : List CachedItem) : a ∈ sortByTs l ↔ a ∈ l := by
  induction l with
  | nil => simp [sortByTs]
  | cons y t ih =>
      show a ∈ insertSorted y (sortByTs t) ↔ _
      rw [mem_insertSorted]
      simp [ih]

theorem mem_getBatchData (q : QueueState) (limit : Nat) (it : CachedItem)
    (h : it ∈ getBatchData q limit) : it ∈ q.items := by
  unfold getBatchData at h
  exact (mem_sortByTs it q.items).mp (List.take_subset _ _ h)

/-- C4: flush removal is exact. (a) `removeData` keeps a stored item iff
its id is not in the argument list, and every surviving item was already
stored: it deletes only the listed ids and leaves all other records
unchanged. (b) For a flush that captured the ids of `getBatchData` at
read time, an item saved after the read but before the removal is still
present afterwards (its fresh auto-increment id cannot be in the captured
list), and each previously stored item survives iff its id was not
captured. -/
theorem C4_flush_exact_removal (q : QueueState)
    (hwf : ∀ it ∈ q.items, it.id < q.nextId) (limit : Nat) (d : JsValue) (now : Nat) :
    (∀ (ids : List Nat) (it : CachedItem), it ∈ q.items →
      (it ∈ (removeData q ids).items ↔ it.id ∉ ids)) ∧
    (∀ (ids : List Nat) (it : CachedItem), it ∈ (removeData q ids).items →
      it ∈ q.items ∧ it.id ∉ ids) ∧
    ((⟨q.nextId, d, now, 0⟩ : CachedItem) ∈
      (removeData (saveData q d now) ((getBatchData q limit).map (fun it => it.id))).items ∧
     ∀ it ∈ q.items,
       (it ∈ (removeData (saveData q d now)
          ((getBatchData q limit).map (fun it => it.id))).items ↔
        it.id ∉ (getBatchData q limit).map (fun it => it.id))) := by
  have hfresh : q.nextId ∉ (getBatchData q limit).map (fun it => it.id) := by
    intro hmem
    obtain ⟨it, hit, hid⟩ := List.mem_map.mp hmem
    have := hwf it (mem_getBatchData q limit it hit)
    omega
  refine ⟨?_, ?_, ?_, ?_⟩
  · intro ids it hit
    simp [removeData, List.mem_filter, hit]
  · intro ids it hit
    simp only [removeData, List.mem_filter] at hit
    refine ⟨hit.1, ?_⟩
    have := hit.2
    simpa using this
  · simp only [removeData, saveData, List.mem_filter]
    constructor
    · simp
    · simpa using hfresh
  · intro it hit
    simp [removeData, saveData, List.mem_filter, List.mem_append, hit]

/-- C4 (witness): a queue holding two items; the flush captures the older
item's id, a new item is saved mid-flush, and the removal deletes exactly
the captured id. -/
theorem C4_flush_exact_removal_witness :
    (⟨3, .vNull, 50, 0⟩ : CachedItem) ∈
      (removeData (saveData ⟨3, [⟨1, .vNull, 10, 0⟩, ⟨2, .vNull, 20, 0⟩]⟩ .vNull 50)
        ((getBatchData ⟨3, [⟨1, .vNull, 10, 0⟩, ⟨2, .vNull, 20, 0⟩]⟩ 1).map
          (fun it => it.id))).items :=
  (C4_flush_exact_removal ⟨3, [⟨1, .vNull, 10, 0⟩, ⟨2, .vNull, 20, 0⟩]⟩
    (by
      intro it hit
      simp only [List.mem_cons, List.not_mem_nil, or_false] at hit
      rcases hit with rfl | rfl <;> simp) 1 .vNull 50).2.2.1

end Storage

namespace Pipeline

open Redaction

/-- C3: disposition of one event by `_report` when the SDK is not in
error state. (1) `replay_session` events bypass the sampling gate
entirely: they are never dropped by sampling and the sampling state and
random stream are untouched. (2) For any other event with sampling
enabled, the event is dropped iff `shouldSampleEvent` returns false;
with sampling disabled nothing is dropped by sampling. (3) A surviving
event is persisted to the durable queue iff offline caching is enabled
and the strategy is batch or periodic, and under batch a flush is
triggered exactly when the queue depth after the save reaches
`batchSize`; in every other configuration the envelope is sent directly
and the queue is untouched. -/
theorem C3_report_routing (cfg : ReportCfg) (baseInfo : JsValue)
    (samp : Sampling.SamplingState) (rng : Sampling.Rng) (queue : Storage.QueueState)
    (fuel : Nat) (data : JsValue) (now : Nat) (r : ReportResult)
    (herr : cfg.isErrorState = false)
    (hr : r = report cfg baseInfo samp rng queue fuel data now) :
    (typeIsReplay data = true →
      r.outcome ≠ .droppedBySampling ∧ r.samp = samp ∧ r.rng = rng) ∧
    (cfg.enableSampling = true → typeIsReplay data = false →
      (r.outcome = .droppedBySampling ↔
        (Sampling.shouldSampleEvent samp rng (typeStringOf data) (some data) now).1 = false)) ∧
    (cfg.enableSampling = false → r.outcome ≠ .droppedBySampling) ∧
    (r.outcome ≠ .droppedBySampling →
      r.envelope = some (buildEnvelope cfg baseInfo
        (processSensitiveData cfg.sensitiveFields cfg.customHandler fuel data)) ∧
      ((cfg.enableOfflineCache = true ∧
          (cfg.reportStrategy = .batch ∨ cfg.reportStrategy = .periodic)) →
        r.queue = Storage.saveData queue (buildEnvelope cfg baseInfo
          (processSensitiveData cfg.sensitiveFields cfg.customHandler fuel data)) now ∧
        (r.outcome = .cached true ↔
          cfg.reportStrategy = .batch ∧
            cfg.batchSize ≤ Storage.getCount (Storage.saveData queue (buildEnvelope cfg
              baseInfo (processSensitiveData cfg.sensitiveFields cfg.customHandler fuel data))
              now)) ∧
        (r.outcome = .cached true ∨ r.outcome = .cached false)) ∧
      (¬ (cfg.enableOfflineCache = true ∧
          (cfg.reportStrategy = .batch ∨ cfg.reportStrategy = .periodic)) →
        r.outcome = .sentDirect ∧ r.queue = queue)) := by
  subst hr
  simp only [report, herr, Bool.false_eq_true, if_false]
  by_cases hgate : (cfg.enableSampling && ! typeIsReplay data) = true
  · rw [if_pos hgate]
    obtain ⟨hs, hnr⟩ := Bool.and_eq_true_iff.mp hgate
    have hnrep : typeIsReplay data = false := by
      cases h : typeIsReplay data
      · rfl
      · rw [h] at hnr
        cases hnr
    cases hdec : (Sampling.shouldSampleEvent samp rng (typeStringOf data) (some data) now).1
    · rw [if_pos rfl]
      refine ⟨fun hrep => absurd hrep (by rw [hnrep]; simp), ?_, ?_, ?_⟩
      · intro _ _
        simp [hdec]
      · intro hsf
        rw [hsf] at hs
        cases hs
      · intro hne
        exact absurd rfl hne
    · rw [if_neg (by simp)]
      refine ⟨fun hrep => absurd hrep (by rw [hnrep]; simp), ?_, ?_, ?_⟩
      · intro _ _
        constructor
        · intro hout
          split at hout <;> [skip; skip] <;> first
            | (split at hout <;> cases hout)
            | cases hout
        · intro hf
          simp at hf
      · intro _
        split <;> first
          | (split <;> simp)
          | simp
      · intro _
        by_cases hcache : (cfg.enableOfflineCache &&
            (cfg.reportStrategy = ReportStrategy.batch ||
              cfg.reportStrategy = ReportStrategy.periodic)) = true
        · rw [if_pos hcache]
          obtain ⟨hoc, hst⟩ := Bool.and_eq_true_iff.mp hcache
          have hstp : cfg.reportStrategy = .batch ∨ cfg.reportStrategy = .periodic := by
            rcases Bool.or_eq_true_iff.mp hst with h | h
            · exact Or.inl (by simpa using h)
            · exact Or.inr (by simpa using h)
          by_cases hfl : (cfg.reportStrategy = ReportStrategy.batch &&
              cfg.batchSize ≤ Storage.getCount (Storage.saveData queue (buildEnvelope cfg
                baseInfo (processSensitiveData cfg.sensitiveFields cfg.customHandler fuel
                  data)) now)) = true
          · rw [if_pos hfl]
            obtain ⟨hb, hsz⟩ := Bool.and_eq_true_iff.mp hfl
            refine ⟨rfl, ?_, ?_⟩
            · intro _
              exact ⟨rfl, by simp [by simpa using hb, by simpa using hsz], Or.inl rfl⟩
            · intro hnot
              exact absurd ⟨by simpa using hoc, hstp⟩ hnot
          · rw [if_neg hfl]
            refine ⟨rfl, ?_, ?_⟩
            · intro _
              refine ⟨rfl, ?_, Or.inr rfl⟩
              constructor
              · intro h
                cases h
              · intro ⟨hb, hsz⟩
                exact absurd (by simp [hb, hsz]) hfl
            · intro hnot
              exact absurd ⟨by simpa using hoc, hstp⟩ hnot
        · rw [if_neg hcache]
          refine ⟨rfl, ?_, fun _ => ⟨rfl, rfl⟩⟩
          intro ⟨hoc, hstp⟩
          refine absurd ?_ hcache
          simp only [Bool.and_eq_true, hoc, true_and]
          rcases hstp with h | h <;> simp [h]
  · rw [if_neg hgate]
    have hg1 : ¬ (((true, samp, rng) :
        Bool × Sampling.SamplingState × Sampling.Rng).1 = false) := by simp
    rw [if_neg hg1]
    refine ⟨?_, ?_, ?_, ?_⟩
    · intro _
      refine ⟨?_, ?_, ?_⟩
      · split <;> first
          | (split <;> simp)
          | simp
      · split <;> first
          | (split <;> rfl)
          | rfl
      · split <;> first
          | (split <;> rfl)
          | rfl
    · intro hsf hnrep
      rw [hsf, hnrep] at hgate
      simp at hgate
    · intro _
      split <;> first
        | (split <;> simp)
        | simp
    · intro _
      by_cases hcache : (cfg.enableOfflineCache &&
          (cfg.reportStrategy = ReportStrategy.batch ||
            cfg.reportStrategy = ReportStrategy.periodic)) = true
      · rw [if_pos hcache]
        obtain ⟨hoc, hst⟩ := Bool.and_eq_true_iff.mp hcache
        have hstp : cfg.reportStrategy = .batch ∨ cfg.reportStrategy = .periodic := by
          rcases Bool.or_eq_true_iff.mp hst with h | h
          · exact Or.inl (by simpa using h)
          · exact Or.inr (by simpa using h)
        by_cases hfl : (cfg.reportStrategy = ReportStrategy.batch &&
            cfg.batchSize ≤ Storage.getCount (Storage.saveData queue (buildEnvelope cfg
              baseInfo (processSensitiveData cfg.sensitiveFields cfg.customHandler fuel
                data)) now)) = true
        · rw [if_pos hfl]
          obtain ⟨hb, hsz⟩ := Bool.and_eq_true_iff.mp hfl
          refine ⟨rfl, ?_, ?_⟩
          · intro _
            exact ⟨rfl, by simp [by simpa using hb, by simpa using hsz], Or.inl rfl⟩
          · intro hnot
            exact absurd ⟨by simpa using hoc, hstp⟩ hnot
        · rw [if_neg hfl]
          refine ⟨rfl, ?_, ?_⟩
          · intro _
            refine ⟨rfl, ?_, Or.inr rfl⟩
            constructor
            · intro h
              cases h
            · intro ⟨hb, hsz⟩
              exact absurd (by simp [hb, hsz]) hfl
          · intro hnot
            exact absurd ⟨by simpa using hoc, hstp⟩ hnot
      · rw [if_neg hcache]
        refine ⟨rfl, ?_, fun _ => ⟨rfl, rfl⟩⟩
        intro ⟨hoc, hstp⟩
        refine absurd ?_ hcache
        simp only [Bool.and_eq_true, hoc, true_and]
        rcases hstp with h | h <;> simp [h]

end Pipeline

namespace Pipeline

open Redaction

/-- Concrete pipeline configuration for the C3 witness: batch strategy
with offline cache, sampling disabled. -/
def cfgC3 : ReportCfg :=
  { isErrorState := false, enableSampling := false, enableOfflineCache := true,
    reportStrategy := .batch, batchSize := 1, sensitiveFields := none,
    customHandler := none, appId := "a".data, userKey := "u".data, sessionId := "s".data }

/-- C3 (witness): with sampling disabled, a custom event is never dropped
by the sampling gate. -/
theorem C3_report_routing_witness :
    (report cfgC3 .vNull ⟨[], [], []⟩ ⟨fun _ => 0, 0⟩ ⟨1, []⟩ 0
        (.vObj (.cons "type".data (.vStr "custom".data) .nil)) 5).outcome ≠
      ReportOutcome.droppedBySampling :=
  (C3_report_routing cfgC3 .vNull ⟨[], [], []⟩ ⟨fun _ => 0, 0⟩ ⟨1, []⟩ 0
    (.vObj (.cons "type".data (.vStr "custom".data) .nil)) 5 _ rfl rfl).2.2.1 rfl

end Pipeline
